import Mathlib

/-!
Formal model of the WebScrapper scraping engine (pingitoreluiz/WebScrapper).

This file is a shallow embedding of the parts of the repository that the
verified properties talk about:

* the `ScraperMetrics` counters and the `BaseScraper.run` page-crawl loop
  (`src/scrapers/base.py`),
* extraction validation (`ExtractionResult.is_valid` in `src/scrapers/models.py`
  and `BaseScraper._validate_extraction` in `src/scrapers/base.py`),
* per-element processing and persistence (`BaseScraper._process_product`,
  `ProductRepository.create` in `src/backend/core/repository.py`,
  pydantic constraints of `RawProduct`/`Price` in `src/backend/core/models.py`),
* the run-record repository (`ScraperRunRepository.create`),
* the `ScrapeStoreUseCase.execute` orchestration
  (`src/scrapers/application/use_cases/scrape_store.py`) together with the
  `ScraperRun` entity (`src/scrapers/domain/entities/scraper_run.py`),
* the Pichau installment-filter price heuristic
  (`PichauScraper.extract_price` in `src/scrapers/pichau.py`),
* the two price-string parsers
  (`Price.from_string` in `src/scrapers/domain/value_objects/price.py` and
  `Price.from_string` in `src/backend/core/models.py`).

Python strings are modelled as `String`/`List Char`, floats and Decimals
as `ℚ`, exceptions as `Option`/explicit error values, and the collaborating
I/O (browser, database session) as explicit state or environment functions.
-/

namespace WebScrapper

/-- Store enumeration, from `Store` in `src/backend/core/models.py`. -/
inductive Store where
  | PICHAU
  | KABUM
  | TERABYTE
deriving DecidableEq, Repr

/-- The counters of `ScraperMetrics` (`src/backend/core/models.py`).
Timestamps and derived `execution_time` are not needed by the verified
properties and are omitted. -/
structure Metrics where
  pages_scraped : ℕ := 0
  products_found : ℕ := 0
  products_saved : ℕ := 0
  products_skipped : ℕ := 0
  errors : ℕ := 0
  captchas_detected : ℕ := 0
deriving DecidableEq, Repr

/-- `ExtractionResult` (`src/scrapers/models.py`): the per-element raw
extraction record.  Fields that can be missing are `Option` (Python `None`). -/
structure ExtractionResult where
  title : Option String := none
  price_raw : Option String := none
  price_value : Option ℚ := none
  url : Option String := none
  available : Bool := true
deriving DecidableEq, Repr

/-- Python truthiness of an optional string (`None` and `""` are falsy). -/
def pyTruthyStr : Option String → Bool
  | none => false
  | some s => !(s == "")

/-- Python truthiness of an optional number (`None` and `0` are falsy). -/
def pyTruthyQ : Option ℚ → Bool
  | none => false
  | some v => !(v == 0)

/-- `ExtractionResult.is_valid` (`src/scrapers/models.py`):
`all([title, price_raw, price_value and price_value > 0, url])`. -/
def ExtractionResult.is_valid (r : ExtractionResult) : Bool :=
  pyTruthyStr r.title &&
    pyTruthyStr r.price_raw &&
    (pyTruthyQ r.price_value &&
      (match r.price_value with
       | some v => decide (0 < v)
       | none => false)) &&
    pyTruthyStr r.url

/-- `BaseScraper._validate_extraction` (`src/scrapers/base.py`):
`is_valid()` plus the price plausibility range: if the price value is truthy
and lies outside `[100, 50000]` the record is rejected. -/
def validateExtraction (r : ExtractionResult) : Bool :=
  if !r.is_valid then false
  else
    match r.price_value with
    | some v =>
        if pyTruthyQ (some v) then
          if v < 100 ∨ 50000 < v then false else true
        else true
    | none => true

/-- A persisted product row, from the columns of `Product` that
`ProductRepository.create` reads and writes (`src/backend/core/repository.py`).
The enrichment metadata columns (`chip_brand`, `manufacturer`, `model`) and
timestamps are not modelled: no verified property inspects them, and the
enricher (`src/scrapers/components/product_enricher.py`) is total and always
yields strings satisfying the pydantic length bounds, so they never change
control flow. -/
structure StoredProduct where
  title : String
  price_raw : String
  price_value : ℚ
  url : String
  store : Store
deriving DecidableEq, Repr

/-- `ProductRepository.create` (`src/backend/core/repository.py`, lines 37-90):
look up the first existing row with the same URL; if found, update it in place
(title and price; the `store` and `url` columns are not reassigned), otherwise
insert a new row. -/
def productRepoCreate : List StoredProduct → StoredProduct → List StoredProduct
  | [], p => [p]
  | r :: rest, p =>
      if r.url == p.url then
        { r with title := p.title, price_raw := p.price_raw, price_value := p.price_value } :: rest
      else
        r :: productRepoCreate rest p

/-- Python `str.strip()` on a `String` (drop surrounding whitespace). -/
def pyStrip (s : String) : String :=
  String.mk (((s.toList.dropWhile Char.isWhitespace).reverse.dropWhile
    Char.isWhitespace).reverse)

/-- Abstraction of pydantic's `HttpUrl` validation on the `url` field of
`RawProduct`: the URL must carry an http(s) scheme and a non-empty remainder. -/
def isHttpUrl (u : String) : Bool :=
  ("http://".toList.isPrefixOf u.toList && decide (7 < u.length)) ||
    ("https://".toList.isPrefixOf u.toList && decide (8 < u.length))

/-- Sublist (substring) containment test, modelling Python's `in` on strings. -/
def hasSubList (needle : List Char) : List Char → Bool
  | [] => needle.isEmpty
  | c :: rest => needle.isPrefixOf (c :: rest) || hasSubList needle rest

/-- Python `str.upper()` on a character list (ASCII-adequate for store names). -/
def upperChars (s : String) : List Char := s.toList.map Char.toUpper

/-- Python `str.capitalize()`: first character upper-cased, rest lower-cased. -/
def pyCapitalize (s : String) : String :=
  match s.toList with
  | [] => ""
  | c :: rest => String.mk (c.toUpper :: rest.map Char.toLower)

/-- The store-name-to-enum mapping inside `BaseScraper._process_product`
(`src/scrapers/base.py`, lines 451-471): substring match on the upper-cased
name, with a fallback to a direct enum-value lookup of the capitalized name;
no match means the element is not saved. -/
def storeEnumOf (storeName : String) : Option Store :=
  let normalized := upperChars storeName
  if hasSubList "TERABYTE".toList normalized then some Store.TERABYTE
  else if hasSubList "KABUM".toList normalized then some Store.KABUM
  else if hasSubList "PICHAU".toList normalized then some Store.PICHAU
  else if pyCapitalize storeName == "Pichau" then some Store.PICHAU
  else if pyCapitalize storeName == "Kabum" then some Store.KABUM
  else if pyCapitalize storeName == "Terabyte" then some Store.TERABYTE
  else none

/-- Construction of the `EnrichedProduct` pydantic model inside
`BaseScraper._process_product`, i.e. the validation of `RawProduct` /
`EnrichedProduct` / `Price` (`src/backend/core/models.py`):

* `title` must satisfy `min_length=5`, `max_length=500`, and strip to a
  non-empty string (the stored title is the stripped one),
* `Price.validate_price_range` requires the numeric value in `[100, 50000]`,
* `url` must be a valid `HttpUrl`.

A `None` in any required field or any failed constraint raises a pydantic
`ValidationError`, modelled as `none`. -/
def mkEnrichedProduct (r : ExtractionResult) (st : Store) : Option StoredProduct :=
  match r.title, r.price_raw, r.price_value, r.url with
  | some t, some praw, some pv, some u =>
      if t.length < 5 ∨ 500 < t.length then none
      else if pyStrip t == "" then none
      else if pv < 100 ∨ 50000 < pv then none
      else if !(isHttpUrl u) then none
      else some { title := pyStrip t, price_raw := praw, price_value := pv, url := u, store := st }
  | _, _, _, _ => none

/-- `BaseScraper._process_product` (`src/scrapers/base.py`, lines 427-499):
validate the extraction, map the store name, build the pydantic product
(any exception is caught and yields `False`), and persist via
`ProductRepository.create`.  Returns whether the element was saved, together
with the updated database. -/
def processProduct (storeName : String) (db : List StoredProduct) (r : ExtractionResult) :
    Bool × List StoredProduct :=
  if !(validateExtraction r) then (false, db)
  else
    match storeEnumOf storeName with
    | none => (false, db)
    | some st =>
        match mkEnrichedProduct r st with
        | none => (false, db)
        | some p => (true, productRepoCreate db p)

/-- The outcome of one iteration of the page loop in `BaseScraper.run`:
either the page loads and yields candidate elements, or navigation raises
`PageLoadError` (also used for the Pichau maintenance page), or a CAPTCHA is
detected, or an unclassified exception occurs. -/
inductive PageOutcome where
  | products (cs : List ExtractionResult)
  | loadError
  | captcha
  | unexpected
deriving Repr

/-- The mutable state of one `BaseScraper` run: the metrics, the product
database reached through the repository, and (as instrumentation for stating
properties) the list of page numbers the loop has navigated to. -/
structure RunState where
  metrics : Metrics
  db : List StoredProduct
  visited : List ℕ
deriving DecidableEq, Repr

/-- The per-element half of `BaseScraper._scrape_page`: each candidate
increments exactly one of `products_saved` / `products_skipped`. -/
def processCandidates (storeName : String) (s : RunState) : List ExtractionResult → RunState
  | [] => s
  | c :: rest =>
      let res := processProduct storeName s.db c
      let m := s.metrics
      let m1 :=
        if res.1 then { m with products_saved := m.products_saved + 1 }
        else { m with products_skipped := m.products_skipped + 1 }
      processCandidates storeName { s with metrics := m1, db := res.2 } rest

/-- The successful-page half of `BaseScraper._scrape_page` (after navigation
and the CAPTCHA check): `pages_scraped += 1`, `products_found += len(products)`,
then process each candidate element. -/
def scrapePageStep (storeName : String) (s : RunState) (cs : List ExtractionResult) : RunState :=
  let m := s.metrics
  processCandidates storeName
    { s with
      metrics :=
        { m with
          pages_scraped := m.pages_scraped + 1
          products_found := m.products_found + cs.length } }
    cs

/-- `BaseScraper._should_continue` (`src/scrapers/base.py`, lines 148-164):
stop when the page number exceeds `max_pages`, or when the accumulated error
counter has reached 3. -/
def shouldContinue (maxPages : ℕ) (m : Metrics) (page : ℕ) : Bool :=
  if maxPages < page then false
  else if 3 ≤ m.errors then false
  else true

/-- Recording that the loop navigates to `page` (instrumentation only). -/
def visitPage (s : RunState) (page : ℕ) : RunState :=
  { s with visited := s.visited ++ [page] }

/-- The page loop of `BaseScraper.run` (`src/scrapers/base.py`, lines 105-125),
written with an explicit iteration budget `fuel` so that it is structurally
recursive (the wrapper `runFrom` below always supplies enough fuel, since the
page number increases on every continuing iteration):

* `PageLoadError` increments `errors` and continues with the next page,
* `CaptchaDetected` increments `captchas_detected` and breaks,
* an unclassified exception increments `errors` and breaks,
* a successful page runs `_scrape_page` and continues.

Every iteration first records the page number it navigates to in `visited`. -/
def runFromFuel (storeName : String) (env : ℕ → PageOutcome) (maxPages : ℕ) :
    ℕ → ℕ → RunState → RunState
  | 0, _, s => s
  | fuel + 1, page, s =>
      if shouldContinue maxPages s.metrics page = true then
        let s1 := visitPage s page
        match env page with
        | PageOutcome.products cs =>
            runFromFuel storeName env maxPages fuel (page + 1) (scrapePageStep storeName s1 cs)
        | PageOutcome.loadError =>
            runFromFuel storeName env maxPages fuel (page + 1)
              { s1 with metrics := { s1.metrics with errors := s1.metrics.errors + 1 } }
        | PageOutcome.captcha =>
            { s1 with
              metrics :=
                { s1.metrics with captchas_detected := s1.metrics.captchas_detected + 1 } }
        | PageOutcome.unexpected =>
            { s1 with metrics := { s1.metrics with errors := s1.metrics.errors + 1 } }
      else s

/-- The page loop starting at `page`: the loop runs at most
`maxPages + 1 - page` further iterations, which is exactly the fuel supplied
(see `runFrom_eq` for the self-contained unfolding equation). -/
def runFrom (storeName : String) (env : ℕ → PageOutcome) (maxPages page : ℕ)
    (s : RunState) : RunState :=
  runFromFuel storeName env maxPages (maxPages + 1 - page) page s


/-- The zeroed state at the start of a run. -/
def initState : RunState := { metrics := {}, db := [], visited := [] }

/-- Result of a whole `BaseScraper.run` execution: the final state, plus the
number of times the `finally` cleanup (`_cleanup_browser`) ran and whether the
metrics were finalized (`finished_at` set). -/
structure BaseRunResult where
  state : RunState
  cleanupCalls : ℕ
  finished : Bool
deriving DecidableEq, Repr

/-- `BaseScraper.run` (`src/scrapers/base.py`, lines 84-144): setup (a setup
failure is caught by the outer handler and counted as an error, skipping the
loop), the page loop from page 1, and the unconditional `finally` block that
cleans up the browser and finalizes the metrics.  The method returns the
metrics on every path; exceptions are data in this model, so totality of this
function is the no-escaping-exception property. -/
def baseRun (storeName : String) (setupOk : Bool) (env : ℕ → PageOutcome)
    (maxPages : ℕ) : BaseRunResult :=
  let s1 :=
    if setupOk then runFrom storeName env maxPages 1 initState
    else
      { initState with
        metrics := { initState.metrics with errors := initState.metrics.errors + 1 } }
  { state := s1, cleanupCalls := 1, finished := true }

/-- The persisted scraper-run row, from the columns `ScraperRunRepository.create`
fills (`src/backend/core/repository.py`, lines 413-442). -/
structure RunRow where
  store : Store
  pages_scraped : ℕ
  products_found : ℕ
  products_saved : ℕ
  products_skipped : ℕ
  errors : ℕ
  captchas_detected : ℕ
  success : Bool
deriving DecidableEq, Repr

/-- `ScraperRunRepository.create` (`src/backend/core/repository.py`,
lines 413-442): the persisted `success` column is computed as
`metrics.errors == 0`. -/
def scraperRunRepoCreate (store : Store) (m : Metrics) : RunRow :=
  { store := store
    pages_scraped := m.pages_scraped
    products_found := m.products_found
    products_saved := m.products_saved
    products_skipped := m.products_skipped
    errors := m.errors
    captchas_detected := m.captchas_detected
    success := m.errors == 0 }

/-! ### The `ScrapeStoreUseCase` orchestration
(`src/scrapers/application/use_cases/scrape_store.py`) -/

/-- One extraction DTO in the use-case loop: whether `is_valid()` holds and
whether `_create_product_from_dto` succeeds (the `Price.from_string` /
`ProductUrl` value-object constructors can raise, and such an exception
propagates out of the page loop). -/
structure UCResult where
  valid : Bool
  buildOk : Bool
deriving DecidableEq, Repr

/-- Outcome of the navigate / get-content / extract steps for one page of the
use-case loop: either the extraction results, or an exception from one of the
collaborator calls. -/
inductive UCPageOutcome where
  | pageRaise
  | results (rs : List UCResult)

/-- Environment of one `ScrapeStoreUseCase.execute` call: whether
`config.validate()` passes (it is called before the `try` block), whether
`browser.initialize` succeeds, the configured `max_pages`, the per-page
outcomes, and the extractor's `should_continue(page_num, products_found)`. -/
structure UCEnv where
  cfgOk : Bool
  initOk : Bool
  maxPages : ℕ
  pages : ℕ → UCPageOutcome
  shouldCont : ℕ → ℕ → Bool

/-- The `ScraperRun` entity counters and outcome
(`src/scrapers/domain/entities/scraper_run.py`).  `finished` models
`finished_at` being set. -/
structure UCRun where
  products_found : ℕ := 0
  products_saved : ℕ := 0
  products_skipped : ℕ := 0
  pages_scraped : ℕ := 0
  errors : ℕ := 0
  captchas_detected : ℕ := 0
  success : Bool := false
  error_message : Option String := none
  finished : Bool := false
deriving DecidableEq, Repr

/-- The per-result loop of `ScrapeStoreUseCase.execute` (lines 107-117):
`increment_products_found()` for every result; a valid result is built into a
`Product` (an exception here aborts the loop), saved, and handed to
`run.add_product` — which appends the entity (a freshly built `Product`
dataclass carries a fresh uuid, so it is never already in `run.products`) and
therefore increments `products_found` a second time — then
`increment_products_saved()`; an invalid result is counted as skipped. -/
def ucProcessResults (run : UCRun) : List UCResult → UCRun × Option String
  | [] => (run, none)
  | r :: rest =>
      let run1 := { run with products_found := run.products_found + 1 }
      if r.valid then
        if r.buildOk then
          ucProcessResults
            { run1 with
              products_found := run1.products_found + 1
              products_saved := run1.products_saved + 1 } rest
        else (run1, some "product construction failed")
      else
        ucProcessResults
          { run1 with products_skipped := run1.products_skipped + 1 } rest

/-- The page loop of `ScrapeStoreUseCase.execute` (lines 90-126):
`while page_num <= max_pages`, navigate / extract (an exception propagates with
the run state accumulated so far), process the results,
`increment_pages_scraped()`, then consult `extractor.should_continue` and
either break or advance to the next page. -/
def ucLoopFuel (env : UCEnv) : ℕ → ℕ → UCRun → UCRun × Option String
  | 0, _, run => (run, none)
  | fuel + 1, page, run =>
      if page ≤ env.maxPages then
        match env.pages page with
        | UCPageOutcome.pageRaise => (run, some "page exception")
        | UCPageOutcome.results rs =>
            match ucProcessResults run rs with
            | (run1, some e) => (run1, some e)
            | (run1, none) =>
                let run2 := { run1 with pages_scraped := run1.pages_scraped + 1 }
                if !(env.shouldCont page run2.products_found) then (run2, none)
                else ucLoopFuel env fuel (page + 1) run2
      else (run, none)

/-- The use-case page loop starting at `page`, with the exact iteration budget
`env.maxPages + 1 - page` (the `while page_num <= config.max_pages` loop runs
at most that many further iterations). -/
def ucLoop (env : UCEnv) (page : ℕ) (run : UCRun) : UCRun × Option String :=
  ucLoopFuel env (env.maxPages + 1 - page) page run

/-- The `try` body of `execute`: initialize the browser (failure is an
exception) and run the page loop from page 1 on the freshly started run. -/
def ucTry (env : UCEnv) : UCRun × Option String :=
  let run0 : UCRun := {}
  if !env.initOk then (run0, some "browser initialization failed")
  else ucLoop env 1 run0

/-- `ScraperRun.finish_successfully`
(`src/scrapers/domain/entities/scraper_run.py`, lines 97-102). -/
def finishSuccessfully (r : UCRun) : UCRun :=
  { r with success := true, error_message := none, finished := true }

/-- `ScraperRun.finish_with_error`
(`src/scrapers/domain/entities/scraper_run.py`, lines 104-114). -/
def finishWithError (msg : String) (r : UCRun) : UCRun :=
  { r with success := false, error_message := some msg, finished := true }

/-- Observable outcome of one `execute` call: the metrics DTO handed back to
the caller (`none` means an exception escaped `execute`), the number of
`browser.close()` calls, and the runs handed to `run_repo.save`. -/
structure UCExecResult where
  result : Option UCRun
  closeCalls : ℕ
  savedRuns : List UCRun
deriving DecidableEq, Repr

/-- `ScrapeStoreUseCase.execute` (lines 63-144): `config.validate()` (outside
the `try`, so its exception escapes), then the `try` body; on success
`finish_successfully`, on an exception `finish_with_error` followed by
`increment_errors`; the `finally` block closes the browser and saves the run
exactly once; the metrics DTO is built field-by-field from the run
(`_create_metrics_dto`), so it is modelled as the run record itself. -/
def ucExecute (env : UCEnv) : UCExecResult :=
  if !env.cfgOk then { result := none, closeCalls := 0, savedRuns := [] }
  else
    let body := ucTry env
    let runFinal :=
      match body.2 with
      | none => finishSuccessfully body.1
      | some e =>
          let r1 := finishWithError e body.1
          { r1 with errors := r1.errors + 1 }
    { result := some runFinal, closeCalls := 1, savedRuns := [runFinal] }

/-! ### The Pichau installment-filter price heuristic
(`PichauScraper.extract_price`, `src/scrapers/pichau.py`, lines 64-147) -/

/-- Python `max(list)` on a non-empty list of rationals (`max_val`). -/
def listMax : List ℚ → ℚ
  | [] => 0
  | [v] => v
  | v :: w :: rest => max v (listMax (w :: rest))

/-- Python `min(list)` on a non-empty list of rationals (`best_price`). -/
def listMin : List ℚ → ℚ
  | [] => 0
  | [v] => v
  | v :: w :: rest => min v (listMin (w :: rest))

/-- The installment-filter choice in `PichauScraper.extract_price`
(lines 109-133): given the detected `valid_values` (each already past the
`> 100` sanity check), take `max_val = max(valid_values)`, keep only values
strictly above `max_val * 0.2`, and return their minimum (falling back to the
minimum of all values if the filter removed everything). -/
def chooseBestPrice (validValues : List ℚ) : Option ℚ :=
  if validValues = [] then none
  else
    let maxVal := listMax validValues
    let realPrices := validValues.filter (fun v => decide (maxVal * 0.2 < v))
    if realPrices = [] then some (listMin validValues)
    else some (listMin realPrices)

/-! ### Price-string parsing -/

/-- Numeric value of a list of decimal digit characters, most significant
first (Python digit accumulation of `int`/`Decimal`). -/
def digitsVal (l : List Char) : ℕ :=
  l.foldl (fun acc c => acc * 10 + (c.toNat - 48)) 0

/-- `re.sub(r'[R$\s]', '', s)` in the domain `Price.from_string`: delete every
'R', '$' and whitespace character. -/
def cleanPrice (l : List Char) : List Char :=
  l.filter (fun c => !(c == 'R' || c == '$' || c.isWhitespace))

/-- Python `str.rindex(c)`: index of the last occurrence of `c` (meaningful
only when `c` occurs, which is how the source uses it). -/
def rindex (c : Char) : List Char → ℕ
  | [] => 0
  | _ :: rest => if c ∈ rest then rindex c rest + 1 else 0

/-- The fragment of Python's `Decimal(str)` constructor reachable from the
cleaned strings this repository produces: digits with at most one '.', at
least one digit overall.  (Exponents, `Infinity`/`NaN` and a leading '+' never
occur in those strings and are not modelled.) -/
def parseDecimalNonneg (l : List Char) : Option ℚ :=
  let ip := l.takeWhile (fun c => !(c == '.'))
  match l.dropWhile (fun c => !(c == '.')) with
  | [] => if ip ≠ [] ∧ ip.all Char.isDigit then some (digitsVal ip) else none
  | '.' :: fp =>
      if (ip ≠ [] ∨ fp ≠ []) ∧ ip.all Char.isDigit ∧ fp.all Char.isDigit then
        some (mkRat (digitsVal ip * 10 ^ fp.length + digitsVal fp) (10 ^ fp.length))
      else none
  | _ => none

/-- `Decimal(str)` with an optional leading '-'. -/
def parseDecimal (l : List Char) : Option ℚ :=
  match l with
  | [] => none
  | c :: rest =>
      if c = '-' then (parseDecimalNonneg rest).map (fun q => -q)
      else parseDecimalNonneg (c :: rest)

/-- `Price.from_string` of the domain value object
(`src/scrapers/domain/value_objects/price.py`, lines 57-102), composed with
`Price._validate` (a zero or negative amount raises): blank input raises;
strip currency symbols and whitespace; if both separators occur, the one with
the larger last index (`rindex`) is the decimal separator; a lone ',' is the
decimal separator; then `Decimal(cleaned)`. -/
def domainPriceFromString (l : List Char) : Option ℚ :=
  if l.all Char.isWhitespace then none
  else
    let cleaned := cleanPrice l
    let cleaned2 :=
      if ',' ∈ cleaned ∧ '.' ∈ cleaned then
        if rindex '.' cleaned < rindex ',' cleaned then
          (cleaned.filter (fun c => !(c == '.'))).map (fun c => if c = ',' then '.' else c)
        else cleaned.filter (fun c => !(c == ','))
      else if ',' ∈ cleaned then cleaned.map (fun c => if c = ',' then '.' else c)
      else cleaned
    (parseDecimal cleaned2).bind fun q =>
      if q < 0 then none else if q = 0 then none else some q

/-- Python `str.replace("R$", "")`: left-to-right, non-overlapping removal of
the two-character substring. -/
def removeRS : List Char → List Char
  | [] => []
  | 'R' :: '$' :: rest => removeRS rest
  | c :: rest => c :: removeRS rest

/-- Python `str.strip()`: drop leading and trailing whitespace. -/
def stripWs (l : List Char) : List Char :=
  ((l.dropWhile Char.isWhitespace).reverse.dropWhile Char.isWhitespace).reverse

/-- `Price.from_string` of the backend core model
(`src/backend/core/models.py`, lines 46-64) composed with its
`validate_price_range` field validator (lines 66-72): remove `"R$"`, delete
every '.', turn every ',' into '.', strip, `Decimal(cleaned)`, and reject a
value outside `[100, 50000]`. -/
def backendPriceFromString (l : List Char) : Option ℚ :=
  let cleaned := stripWs (((removeRS l).filter (fun c => !(c == '.'))).map
    (fun c => if c = ',' then '.' else c))
  (parseDecimal cleaned).bind fun v =>
    if v < 100 ∨ 50000 < v then none else some v

/-! ### Spec-side predicate and concrete fixtures -/

/-- The validity condition exactly as the specification words it (the §3
`ExtractedRecord` invariant together with the §4.1 range rule): non-empty
title, non-empty raw price string, numeric price strictly greater than 0 and
lying in `[100, 50000]`, non-empty URL.  Written from the spec text, to be
compared against the code's `validateExtraction`. -/
def specValid (r : ExtractionResult) : Bool :=
  (match r.title with | some t => !(t == "") | none => false) &&
    (match r.price_raw with | some p => !(p == "") | none => false) &&
    (match r.price_value with
     | some v => decide (0 < v) && decide (100 ≤ v) && decide (v ≤ 50000)
     | none => false) &&
    (match r.url with | some u => !(u == "") | none => false)

/-- A concrete valid extraction: title of ≥ 5 characters, price in range,
http URL. -/
def cand1 : ExtractionResult :=
  { title := some "Placa de Video ASUS RTX 4090"
    price_raw := some "R$ 5.399,00"
    price_value := some 5399
    url := some "https://www.pichau.com.br/p1" }

/-- A second concrete valid extraction with a different URL. -/
def cand2 : ExtractionResult :=
  { title := some "Placa de Video MSI RX 7900 XTX"
    price_raw := some "R$ 2.500,00"
    price_value := some 2500
    url := some "https://www.pichau.com.br/p2" }

/-- A concrete card with no price (fails `is_valid`). -/
def cand3 : ExtractionResult :=
  { title := some "Placa de Video Gigabyte RTX 4060"
    url := some "https://www.pichau.com.br/p3" }

/-- A concrete card that passes extraction validation but whose title has
fewer than 5 characters. -/
def candShortTitle : ExtractionResult :=
  { title := some "GPU"
    price_raw := some "R$ 5.399,00"
    price_value := some 5399
    url := some "https://www.pichau.com.br/p4" }

/-- Page outcomes with a CAPTCHA on page 2, normal pages otherwise. -/
def envCaptchaP2 : ℕ → PageOutcome := fun k =>
  if k = 2 then PageOutcome.captcha else PageOutcome.products [cand1]

/-- Page outcomes with page-load failures on pages 1, 3 and 5, interleaved
with successful (empty) pages. -/
def envInterleavedErrors : ℕ → PageOutcome := fun k =>
  if k = 1 ∨ k = 3 ∨ k = 5 then PageOutcome.loadError else PageOutcome.products []

/-- One load failure on page 1, successes afterwards. -/
def envOneError : ℕ → PageOutcome := fun k =>
  if k = 1 then PageOutcome.loadError else PageOutcome.products []

/-- Every page holds three product cards: two valid, one missing its price. -/
def envThreeCards : ℕ → PageOutcome := fun _ =>
  PageOutcome.products [cand1, cand2, cand3]

/-- A concrete use-case environment in which everything succeeds. -/
def ucEnvOk : UCEnv :=
  { cfgOk := true
    initOk := true
    maxPages := 2
    pages := fun _ =>
      UCPageOutcome.results [{ valid := true, buildOk := true }, { valid := false, buildOk := false }]
    shouldCont := fun _ _ => true }

/-- A concrete use-case environment whose browser initialization fails. -/
def ucEnvInitFail : UCEnv :=
  { cfgOk := true
    initOk := false
    maxPages := 3
    pages := fun _ => UCPageOutcome.pageRaise
    shouldCont := fun _ _ => true }

/-- A run state whose error counter has already reached 3. -/
def errState3 : RunState := { metrics := { errors := 3 }, db := [], visited := [] }

/-- Two concrete enriched products sharing a URL but differing in title and
price. -/
def prodP : StoredProduct :=
  { title := "Placa de Video ASUS RTX 4090"
    price_raw := "R$ 5.399,00"
    price_value := 5399
    url := "https://www.pichau.com.br/p1"
    store := Store.PICHAU }

/-- See `prodP`. -/
def prodQ : StoredProduct :=
  { title := "Placa de Video ASUS RTX 4090 OC"
    price_raw := "R$ 5.199,00"
    price_value := 5199
    url := "https://www.pichau.com.br/p1"
    store := Store.PICHAU }

/-! ## Helper lemmas about the crawl loop -/

theorem shouldContinue_iff (maxPages : ℕ) (m : Metrics) (page : ℕ) :
    shouldContinue maxPages m page = true ↔ page ≤ maxPages ∧ m.errors < 3 := by
  by_cases h1 : maxPages < page <;> by_cases h2 : 3 ≤ m.errors <;>
    simp [shouldContinue, h1, h2] <;> omega

/-- Self-contained unfolding equation for the page loop: the fuel bookkeeping
of `runFromFuel` is invisible as long as the loop is entered through
`runFrom`. -/
theorem runFrom_eq (storeName : String) (env : ℕ → PageOutcome) (maxPages page : ℕ)
    (s : RunState) :
    runFrom storeName env maxPages page s =
      if shouldContinue maxPages s.metrics page = true then
        let s1 := visitPage s page
        match env page with
        | PageOutcome.products cs =>
            runFrom storeName env maxPages (page + 1) (scrapePageStep storeName s1 cs)
        | PageOutcome.loadError =>
            runFrom storeName env maxPages (page + 1)
              { s1 with metrics := { s1.metrics with errors := s1.metrics.errors + 1 } }
        | PageOutcome.captcha =>
            { s1 with
              metrics :=
                { s1.metrics with captchas_detected := s1.metrics.captchas_detected + 1 } }
        | PageOutcome.unexpected =>
            { s1 with metrics := { s1.metrics with errors := s1.metrics.errors + 1 } }
      else s := by
  by_cases hc : shouldContinue maxPages s.metrics page = true
  · have hple : page ≤ maxPages := ((shouldContinue_iff maxPages s.metrics page).mp hc).1
    have hfuel : maxPages + 1 - page = (maxPages - page) + 1 := by omega
    have hfuel2 : maxPages + 1 - (page + 1) = maxPages - page := by omega
    unfold runFrom
    rw [hfuel, hfuel2]
    simp only [runFromFuel, hc, if_true]
  · have h0 : ∀ fuel, runFromFuel storeName env maxPages fuel page s = s := by
      intro fuel
      cases fuel with
      | zero => rfl
      | succ f => simp only [runFromFuel, hc]; rfl
    unfold runFrom
    rw [h0, if_neg]
    exact fun h => hc h

/-- `processCandidates` only touches `products_saved`, `products_skipped` and
the database: the error, CAPTCHA, page and found counters and the visited-page
trace are fixed. -/
theorem processCandidates_fixed (storeName : String) (cs : List ExtractionResult) :
    ∀ s : RunState,
      (processCandidates storeName s cs).metrics.errors = s.metrics.errors ∧
      (processCandidates storeName s cs).metrics.captchas_detected
          = s.metrics.captchas_detected ∧
      (processCandidates storeName s cs).metrics.pages_scraped = s.metrics.pages_scraped ∧
      (processCandidates storeName s cs).metrics.products_found
          = s.metrics.products_found ∧
      (processCandidates storeName s cs).visited = s.visited := by
  induction cs with
  | nil => intro s; simp [processCandidates]
  | cons c rest ih =>
      intro s
      simp only [processCandidates]
      by_cases h : (processProduct storeName s.db c).1
      · rw [if_pos h]
        have h2 := ih { s with
          metrics := { s.metrics with products_saved := s.metrics.products_saved + 1 }
          db := (processProduct storeName s.db c).2 }
        simpa using h2
      · rw [if_neg h]
        have h2 := ih { s with
          metrics := { s.metrics with products_skipped := s.metrics.products_skipped + 1 }
          db := (processProduct storeName s.db c).2 }
        simpa using h2

/-- Each candidate element increments exactly one of `products_saved` /
`products_skipped`, and at most `products_saved`. -/
theorem processCandidates_counts (storeName : String) (cs : List ExtractionResult) :
    ∀ s : RunState,
      (processCandidates storeName s cs).metrics.products_saved +
            (processCandidates storeName s cs).metrics.products_skipped =
          s.metrics.products_saved + s.metrics.products_skipped + cs.length ∧
        (processCandidates storeName s cs).metrics.products_saved ≤
          s.metrics.products_saved + cs.length := by
  induction cs with
  | nil => intro s; simp [processCandidates]
  | cons c rest ih =>
      intro s
      simp only [processCandidates]
      by_cases h : (processProduct storeName s.db c).1
      · rw [if_pos h]
        have h2 := ih { s with
          metrics := { s.metrics with products_saved := s.metrics.products_saved + 1 }
          db := (processProduct storeName s.db c).2 }
        simp only [List.length_cons] at h2 ⊢
        omega
      · rw [if_neg h]
        have h2 := ih { s with
          metrics := { s.metrics with products_skipped := s.metrics.products_skipped + 1 }
          db := (processProduct storeName s.db c).2 }
        simp only [List.length_cons] at h2 ⊢
        omega

/-- The loop never forgets a page it has already navigated to. -/
theorem runFromFuel_visited_mono (storeName : String) (env : ℕ → PageOutcome)
    (maxPages : ℕ) :
    ∀ fuel page s x, x ∈ s.visited →
      x ∈ (runFromFuel storeName env maxPages fuel page s).visited := by
  intro fuel
  induction fuel with
  | zero => intro page s x hx; exact hx
  | succ f ih =>
      intro page s x hx
      simp only [runFromFuel]
      by_cases hc : shouldContinue maxPages s.metrics page = true
      · rw [if_pos hc]
        have hx1 : x ∈ (visitPage s page).visited := by
          simp [visitPage]; left; exact hx
        cases henv : env page with
        | products cs =>
            apply ih
            unfold scrapePageStep
            rw [(processCandidates_fixed storeName cs _).2.2.2.2]
            exact hx1
        | loadError => exact ih _ _ x hx1
        | captcha => exact hx1
        | unexpected => exact hx1
      · rw [if_neg hc]; exact hx

/-- Through `runFrom`, the same monotonicity. -/
theorem runFrom_visited_mono (storeName : String) (env : ℕ → PageOutcome)
    (maxPages page : ℕ) (s : RunState) (x : ℕ) (hx : x ∈ s.visited) :
    x ∈ (runFrom storeName env maxPages page s).visited :=
  runFromFuel_visited_mono storeName env maxPages _ page s x hx

/-- Core induction for the CAPTCHA-termination property: if every page from
`p` up to (but excluding) `n` loads and yields products, the error counter is
zero, `n ≤ maxPages`, and page `n` triggers the CAPTCHA check, then the loop
runs exactly the pages `p..n`, scrapes `n - p` of them, detects exactly one
CAPTCHA and navigates to no page beyond `n`. -/
theorem runFrom_products_then_captcha (storeName : String) (env : ℕ → PageOutcome)
    (maxPages n : ℕ) :
    ∀ d p s, p + d = n → n ≤ maxPages → s.metrics.errors = 0 →
      (∀ k, p ≤ k → k < n → ∃ cs, env k = PageOutcome.products cs) →
      env n = PageOutcome.captcha →
      (runFrom storeName env maxPages p s).metrics.captchas_detected
          = s.metrics.captchas_detected + 1 ∧
        (runFrom storeName env maxPages p s).metrics.pages_scraped
            = s.metrics.pages_scraped + (n - p) ∧
        ∀ k ∈ (runFrom storeName env maxPages p s).visited, k ∈ s.visited ∨ k ≤ n := by
  intro d
  induction d with
  | zero =>
      intro p s hpd hmax herr hb hc
      have hpn : p = n := by omega
      subst hpn
      have hsc : shouldContinue maxPages s.metrics p = true := by
        rw [shouldContinue_iff]; omega
      rw [runFrom_eq, if_pos hsc, hc]
      refine ⟨rfl, by simp [visitPage], ?_⟩
      intro k hk
      simp only [visitPage, List.mem_append, List.mem_singleton] at hk
      rcases hk with hk | hk
      · exact Or.inl hk
      · exact Or.inr (le_of_eq hk)
  | succ d ih =>
      intro p s hpd hmax herr hb hc
      have hpn : p < n := by omega
      have hsc : shouldContinue maxPages s.metrics p = true := by
        rw [shouldContinue_iff]; omega
      obtain ⟨cs, hcs⟩ := hb p le_rfl hpn
      rw [runFrom_eq, if_pos hsc, hcs]
      have herr2 : (scrapePageStep storeName (visitPage s p) cs).metrics.errors = 0 := by
        unfold scrapePageStep
        rw [(processCandidates_fixed storeName cs _).1]
        exact herr
      have hstep := ih (p + 1) (scrapePageStep storeName (visitPage s p) cs)
        (by omega) hmax herr2 (fun k hk1 hk2 => hb k (by omega) hk2) hc
      have hcap : (scrapePageStep storeName (visitPage s p) cs).metrics.captchas_detected
          = s.metrics.captchas_detected := by
        unfold scrapePageStep
        rw [(processCandidates_fixed storeName cs _).2.1]
        simp [visitPage]
      have hpg : (scrapePageStep storeName (visitPage s p) cs).metrics.pages_scraped
          = s.metrics.pages_scraped + 1 := by
        unfold scrapePageStep
        rw [(processCandidates_fixed storeName cs _).2.2.1]
        simp [visitPage]
      have hvis : (scrapePageStep storeName (visitPage s p) cs).visited
          = s.visited ++ [p] := by
        unfold scrapePageStep
        rw [(processCandidates_fixed storeName cs _).2.2.2.2]
        simp [visitPage]
      refine ⟨?_, ?_, ?_⟩
      · rw [hstep.1, hcap]
      · rw [hstep.2.1, hpg]; omega
      · intro k hk
        rcases hstep.2.2 k hk with hk2 | hk2
        · rw [hvis] at hk2
          simp only [List.mem_append, List.mem_singleton] at hk2
          rcases hk2 with hk3 | hk3
          · exact Or.inl hk3
          · exact Or.inr (by omega)
        · exact Or.inr hk2

/-- The error counter never decreases across the loop. -/
theorem runFromFuel_errors_mono (storeName : String) (env : ℕ → PageOutcome)
    (maxPages : ℕ) :
    ∀ fuel page s, s.metrics.errors ≤
      (runFromFuel storeName env maxPages fuel page s).metrics.errors := by
  intro fuel
  induction fuel with
  | zero => intro page s; exact le_rfl
  | succ f ih =>
      intro page s
      simp only [runFromFuel]
      by_cases hc : shouldContinue maxPages s.metrics page = true
      · rw [if_pos hc]
        split
        · refine le_trans ?_ (ih _ _)
          unfold scrapePageStep
          rename_i cs _
          rw [(processCandidates_fixed storeName cs _).1]
          simp [visitPage]
        · refine le_trans ?_ (ih _ _)
          simp [visitPage]
        · simp [visitPage]
        · simp [visitPage]
      · rw [if_neg hc]

/-- If the loop may still continue at `page`, the iteration for `page`
navigates there (its number enters the visited trace). -/
theorem runFrom_visits_first (storeName : String) (env : ℕ → PageOutcome)
    (maxPages page : ℕ) (s : RunState)
    (h : shouldContinue maxPages s.metrics page = true) :
    page ∈ (runFrom storeName env maxPages page s).visited := by
  rw [runFrom_eq, if_pos h]
  have hmem : page ∈ (visitPage s page).visited := by simp [visitPage]
  cases henv : env page with
  | products cs =>
      apply runFrom_visited_mono
      unfold scrapePageStep
      rw [(processCandidates_fixed storeName cs _).2.2.2.2]
      exact hmem
  | loadError => exact runFrom_visited_mono _ _ _ _ _ _ hmem
  | captcha => exact hmem
  | unexpected => exact hmem

/-- C1: a CAPTCHA signal detected on page `n` (`n ≥ 2`) of a `maxPages`-page
crawl whose earlier pages load normally stops the crawl loop immediately:
`captchas_detected` is incremented exactly once (ending at 1),
`pages_scraped` is not incremented for the CAPTCHA page (ending at `n - 1`),
and no page after `n` is ever navigated to. -/
theorem captcha_stops_crawl_immediately (storeName : String) (env : ℕ → PageOutcome)
    (maxPages n : ℕ) (hn : 2 ≤ n) (hmax : n ≤ maxPages)
    (hb : ∀ k, 1 ≤ k → k < n → ∃ cs, env k = PageOutcome.products cs)
    (hc : env n = PageOutcome.captcha) :
    (baseRun storeName true env maxPages).state.metrics.captchas_detected = 1 ∧
      (baseRun storeName true env maxPages).state.metrics.pages_scraped = n - 1 ∧
      ∀ k ∈ (baseRun storeName true env maxPages).state.visited, k ≤ n := by
  have h := runFrom_products_then_captcha storeName env maxPages n (n - 1) 1 initState
    (by omega) hmax rfl (fun k hk1 hk2 => hb k hk1 hk2) hc
  refine ⟨?_, ?_, ?_⟩
  · simpa [baseRun, initState] using h.1
  · simpa [baseRun, initState] using h.2.1
  · intro k hk
    have h2 := h.2.2 k (by simpa [baseRun] using hk)
    simpa [initState] using h2

/-- Witness for `captcha_stops_crawl_immediately`: a CAPTCHA on page 2 of a
10-page crawl ends with `pages_scraped = 1`, `captchas_detected = 1` and no
page beyond 2 navigated. -/
theorem captcha_stops_crawl_immediately_witness :
    ((2 : ℕ) ≤ 2 ∧ (2 : ℕ) ≤ 10) ∧
      ((baseRun "Pichau" true envCaptchaP2 10).state.metrics.captchas_detected = 1 ∧
        (baseRun "Pichau" true envCaptchaP2 10).state.metrics.pages_scraped = 2 - 1 ∧
        ∀ k ∈ (baseRun "Pichau" true envCaptchaP2 10).state.visited, k ≤ 2) :=
  ⟨⟨by decide, by decide⟩,
    captcha_stops_crawl_immediately "Pichau" envCaptchaP2 10 2 (by decide) (by decide)
      (fun k hk1 hk2 => ⟨[cand1], by
        have hk : k = 1 := by omega
        subst hk
        rfl⟩)
      rfl⟩

/-- C2 counterexample: load failures on pages 1, 3 and 5, interleaved with
successful pages, in a 10-page crawl with no CAPTCHA and no unexpected error.
The accumulated error counter reaches 3 and the loop stops right after page 5
(page 6 is never navigated even though `max_pages = 10`) — so three
non-consecutive page-load errors interleaved with successful pages do stop the
loop, contrary to the claim. -/
theorem nonconsecutive_errors_still_stop_loop :
    (baseRun "Pichau" true envInterleavedErrors 10).state.metrics.errors = 3 ∧
      (baseRun "Pichau" true envInterleavedErrors 10).state.metrics.captchas_detected = 0 ∧
      (baseRun "Pichau" true envInterleavedErrors 10).state.metrics.pages_scraped = 2 ∧
      (baseRun "Pichau" true envInterleavedErrors 10).state.visited = [1, 2, 3, 4, 5] ∧
      (6 : ℕ) ∉ (baseRun "Pichau" true envInterleavedErrors 10).state.visited := by
  decide

/-- C2 amended: a single page-navigation failure is recoverable — while fewer
than two errors have accumulated, a `PageLoadError` increments the error
counter and the loop still navigates to the next page — and the page loop
stops entirely (performs no further iteration) exactly when the *accumulated*
error counter has reached 3, whether or not the errors were consecutive. -/
theorem single_load_error_recoverable_three_total_stop (storeName : String)
    (env : ℕ → PageOutcome) (maxPages page : ℕ) (s : RunState) :
    (s.metrics.errors ≤ 1 → env page = PageOutcome.loadError → page < maxPages →
      page + 1 ∈ (runFrom storeName env maxPages page s).visited ∧
        s.metrics.errors + 1 ≤ (runFrom storeName env maxPages page s).metrics.errors) ∧
      (3 ≤ s.metrics.errors → runFrom storeName env maxPages page s = s) := by
  constructor
  · intro herr henv hlt
    have hsc : shouldContinue maxPages s.metrics page = true := by
      rw [shouldContinue_iff]; omega
    rw [runFrom_eq, if_pos hsc, henv]
    constructor
    · apply runFrom_visits_first
      rw [shouldContinue_iff]
      refine ⟨by omega, ?_⟩
      simp only [visitPage]
      omega
    · have h1 := runFromFuel_errors_mono storeName env maxPages
        (maxPages + 1 - (page + 1)) (page + 1)
        { visitPage s page with
          metrics :=
            { (visitPage s page).metrics with
              errors := (visitPage s page).metrics.errors + 1 } }
      unfold runFrom
      simp only [visitPage] at h1 ⊢
      omega
  · intro herr
    have hns : ¬(shouldContinue maxPages s.metrics page = true) := by
      intro hx
      have h2 := ((shouldContinue_iff maxPages s.metrics page).mp hx).2
      omega
    rw [runFrom_eq, if_neg hns]

/-- Witness for `single_load_error_recoverable_three_total_stop`: with one
load failure on page 1 of a 3-page crawl, page 2 is still navigated and the
error counter grows; and from a state that already carries 3 errors, the loop
runs zero iterations. -/
theorem single_load_error_recoverable_witness :
    ((2 : ℕ) ∈ (runFrom "Pichau" envOneError 3 1 initState).visited ∧
        initState.metrics.errors + 1 ≤
          (runFrom "Pichau" envOneError 3 1 initState).metrics.errors) ∧
      runFrom "Pichau" envOneError 3 1 errState3 = errState3 :=
  ⟨(single_load_error_recoverable_three_total_stop "Pichau" envOneError 3 1
      initState).1 (by decide) rfl (by decide),
    (single_load_error_recoverable_three_total_stop "Pichau" envOneError 3 1
      errState3).2 (by decide)⟩

/-- C3: on every execution path — success, page-level failure, CAPTCHA (an
exception reaching the use-case loop), or session-initialization failure —
the finalize step runs: `ScrapeStoreUseCase.execute` (on a configuration that
validates) invokes the browser-session close exactly once, hands the run to
the run repository exactly once, and returns a metrics record normally
instead of propagating an exception; likewise `BaseScraper.run` reaches its
`finally` cleanup exactly once and finalizes the metrics on every path. -/
theorem finalize_always_runs (uenv : UCEnv) (storeName : String) (setupOk : Bool)
    (env : ℕ → PageOutcome) (maxPages : ℕ) (hcfg : uenv.cfgOk = true) :
    ((ucExecute uenv).closeCalls = 1 ∧
        (ucExecute uenv).result.isSome = true ∧
        (ucExecute uenv).savedRuns.length = 1) ∧
      (baseRun storeName setupOk env maxPages).cleanupCalls = 1 ∧
      (baseRun storeName setupOk env maxPages).finished = true := by
  unfold ucExecute baseRun
  rw [hcfg]
  simp

/-- Witness for `finalize_always_runs`, exercising a fully successful use-case
run together with a `BaseScraper` run whose browser setup fails. -/
theorem finalize_always_runs_witness :
    ucEnvOk.cfgOk = true ∧
      (((ucExecute ucEnvOk).closeCalls = 1 ∧
          (ucExecute ucEnvOk).result.isSome = true ∧
          (ucExecute ucEnvOk).savedRuns.length = 1) ∧
        (baseRun "Pichau" false envInterleavedErrors 5).cleanupCalls = 1 ∧
        (baseRun "Pichau" false envInterleavedErrors 5).finished = true) :=
  ⟨rfl, finalize_always_runs ucEnvOk "Pichau" false envInterleavedErrors 5 rfl⟩

/-- C4 counterexample: a 3-page crawl in which only page 1 suffers a
recoverable `PageLoadError` (no CAPTCHA, no unexpected error; pages 2 and 3
are scraped normally).  Handing its metrics to `ScraperRunRepository.create`
records `success = false` — not `true` as the claim states — because the
repository computes `success = (errors == 0)` and the recoverable error left
`errors = 1`. -/
theorem only_recoverable_errors_recorded_failed :
    (baseRun "Pichau" true envOneError 3).state.metrics.errors = 1 ∧
      (baseRun "Pichau" true envOneError 3).state.metrics.captchas_detected = 0 ∧
      (baseRun "Pichau" true envOneError 3).state.metrics.pages_scraped = 2 ∧
      (scraperRunRepoCreate Store.PICHAU
          (baseRun "Pichau" true envOneError 3).state.metrics).success = false := by
  decide

/-- C4 amended: the persisted success flag of `ScraperRunRepository.create` is
computed in the repository as `errors == 0` — so a run that experienced only
recoverable page-load errors is recorded with `success = false`; and in the
use-case path, the `ScraperRun` handed to the run repository has
`success = true` exactly when no exception escaped the page loop. -/
theorem run_repo_success_iff_no_errors (st : Store) (m : Metrics) (uenv : UCEnv)
    (hcfg : uenv.cfgOk = true) :
    ((scraperRunRepoCreate st m).success = true ↔ m.errors = 0) ∧
      ∃ r, (ucExecute uenv).savedRuns = [r] ∧
        (r.success = true ↔ (ucTry uenv).2 = none) := by
  constructor
  · simp [scraperRunRepoCreate]
  · unfold ucExecute
    rw [hcfg]
    simp only [Bool.not_true, Bool.false_eq_true, if_false]
    refine ⟨_, rfl, ?_⟩
    cases h : (ucTry uenv).2 with
    | none => simp [h, finishSuccessfully]
    | some e => simp [h, finishWithError]

/-- Witness for `run_repo_success_iff_no_errors` at a zero-error metrics
record and the all-success use-case environment. -/
theorem run_repo_success_iff_no_errors_witness :
    ucEnvOk.cfgOk = true ∧
      (((scraperRunRepoCreate Store.PICHAU {}).success = true ↔
          ({} : Metrics).errors = 0) ∧
        ∃ r, (ucExecute ucEnvOk).savedRuns = [r] ∧
          (r.success = true ↔ (ucTry ucEnvOk).2 = none)) :=
  ⟨rfl, run_repo_success_iff_no_errors Store.PICHAU {} ucEnvOk rfl⟩

/-- One page step preserves `products_saved ≤ products_found`: the page first
adds all its candidates to `products_found`, and at most one save happens per
candidate. -/
theorem scrapePageStep_saved_le_found (storeName : String) (s : RunState)
    (cs : List ExtractionResult)
    (h : s.metrics.products_saved ≤ s.metrics.products_found) :
    (scrapePageStep storeName s cs).metrics.products_saved ≤
      (scrapePageStep storeName s cs).metrics.products_found := by
  unfold scrapePageStep
  refine le_trans (processCandidates_counts storeName cs _).2 ?_
  rw [(processCandidates_fixed storeName cs _).2.2.2.1]
  simp only []
  omega

/-- The whole loop preserves `products_saved ≤ products_found`. -/
theorem runFromFuel_saved_le_found (storeName : String) (env : ℕ → PageOutcome)
    (maxPages : ℕ) :
    ∀ fuel page s, s.metrics.products_saved ≤ s.metrics.products_found →
      (runFromFuel storeName env maxPages fuel page s).metrics.products_saved ≤
        (runFromFuel storeName env maxPages fuel page s).metrics.products_found := by
  intro fuel
  induction fuel with
  | zero => intro page s h; exact h
  | succ f ih =>
      intro page s h
      simp only [runFromFuel]
      by_cases hc : shouldContinue maxPages s.metrics page = true
      · rw [if_pos hc]
        split
        · apply ih
          apply scrapePageStep_saved_le_found
          exact h
        · apply ih
          simpa [visitPage] using h
        · simpa [visitPage] using h
        · simpa [visitPage] using h
      · rw [if_neg hc]
        exact h

/-- C8: `products_saved ≤ products_found` holds at every point during a run:

1. the page loop preserves it from any state satisfying it (so it holds at
   every page boundary of a run started from zeroed counters);
2. it holds at every intermediate point inside a page — after the page has
   added its candidate count to `products_found` and any prefix of the
   candidates has been processed;
3. every candidate increments exactly one of `products_saved` /
   `products_skipped`;
4. a run over one page holding 3 product cards — 2 valid and 1 missing its
   price — ends with `products_found = 3`, `products_saved = 2`,
   `products_skipped = 1`. -/
theorem saved_le_found_at_every_point :
    (∀ (storeName : String) (env : ℕ → PageOutcome) (maxPages page : ℕ) (s : RunState),
        s.metrics.products_saved ≤ s.metrics.products_found →
          (runFrom storeName env maxPages page s).metrics.products_saved ≤
            (runFrom storeName env maxPages page s).metrics.products_found) ∧
      (∀ (storeName : String) (s : RunState) (cs : List ExtractionResult) (j : ℕ),
        s.metrics.products_saved ≤ s.metrics.products_found →
          (processCandidates storeName
              { s with
                metrics :=
                  { s.metrics with
                    pages_scraped := s.metrics.pages_scraped + 1
                    products_found := s.metrics.products_found + cs.length } }
              (cs.take j)).metrics.products_saved ≤
            (processCandidates storeName
              { s with
                metrics :=
                  { s.metrics with
                    pages_scraped := s.metrics.pages_scraped + 1
                    products_found := s.metrics.products_found + cs.length } }
              (cs.take j)).metrics.products_found) ∧
      (∀ (storeName : String) (s : RunState) (cs : List ExtractionResult),
        (processCandidates storeName s cs).metrics.products_saved +
            (processCandidates storeName s cs).metrics.products_skipped =
          s.metrics.products_saved + s.metrics.products_skipped + cs.length) ∧
      ((baseRun "Pichau" true envThreeCards 1).state.metrics.products_found = 3 ∧
        (baseRun "Pichau" true envThreeCards 1).state.metrics.products_saved = 2 ∧
        (baseRun "Pichau" true envThreeCards 1).state.metrics.products_skipped = 1 ∧
        (baseRun "Pichau" true envThreeCards 1).state.metrics.pages_scraped = 1) := by
  refine ⟨?_, ?_, ?_, ?_⟩
  · intro storeName env maxPages page s h
    exact runFromFuel_saved_le_found storeName env maxPages _ page s h
  · intro storeName s cs j h
    refine le_trans (processCandidates_counts storeName (cs.take j) _).2 ?_
    rw [(processCandidates_fixed storeName (cs.take j) _).2.2.2.1]
    simp only [List.length_take]
    omega
  · intro storeName s cs
    exact (processCandidates_counts storeName cs s).1
  · decide

/-- Witness for `saved_le_found_at_every_point` at the three-card page. -/
theorem saved_le_found_at_every_point_witness :
    initState.metrics.products_saved ≤ initState.metrics.products_found ∧
      (runFrom "Pichau" envThreeCards 1 1 initState).metrics.products_saved ≤
        (runFrom "Pichau" envThreeCards 1 1 initState).metrics.products_found :=
  ⟨by decide,
    saved_le_found_at_every_point.1 "Pichau" envThreeCards 1 1 initState (by decide)⟩

/-- The code's two-stage validation (`is_valid` plus the range check of
`_validate_extraction`) computes exactly the spec's validity condition. -/
theorem validateExtraction_eq_specValid (r : ExtractionResult) :
    validateExtraction r = specValid r := by
  rcases r with ⟨t, praw, pv, u, av⟩
  cases t <;> cases praw <;> cases pv <;> cases u <;>
    simp only [validateExtraction, specValid, ExtractionResult.is_valid,
      pyTruthyStr, pyTruthyQ, Bool.and_false, Bool.false_and, Bool.and_true,
      Bool.true_and, Bool.not_false, Bool.not_true, if_true, if_false] <;>
    try rfl
  all_goals rename_i a b c d
  all_goals
    by_cases h1 : a = "" <;> by_cases h2 : b = "" <;> by_cases h4 : d = "" <;>
      by_cases h0 : c = 0 <;> by_cases hpos : 0 < c <;>
      by_cases hlo : c < 100 <;> by_cases hhi : 50000 < c <;>
      simp [h1, h2, h4, h0, hpos, hlo, hhi, le_of_not_lt, not_lt.mp]

/-- C7: a candidate element is persisted and counted as saved only if it
meets the spec's validity condition — non-empty title, non-empty raw price
string, numeric price strictly greater than 0 and lying in `[100, 50000]`,
non-empty URL; every candidate failing any of these conditions is counted as
skipped (`false`) and leaves the database untouched; and more generally any
candidate that is not saved persists nothing. -/
theorem persisted_only_if_valid (storeName : String) (db : List StoredProduct)
    (r : ExtractionResult) :
    ((processProduct storeName db r).1 = true → specValid r = true) ∧
      (specValid r = false →
        (processProduct storeName db r).1 = false ∧
          (processProduct storeName db r).2 = db) ∧
      ((processProduct storeName db r).1 = false →
        (processProduct storeName db r).2 = db) := by
  refine ⟨?_, ?_, ?_⟩
  · intro h
    by_contra hns
    have hsv : specValid r = false := by
      cases hx : specValid r
      · rfl
      · exact absurd hx hns
    have hinv : validateExtraction r = false := by
      rw [validateExtraction_eq_specValid]; exact hsv
    unfold processProduct at h
    rw [hinv] at h
    simp at h
  · intro h
    have hinv : validateExtraction r = false := by
      rw [validateExtraction_eq_specValid]; exact h
    unfold processProduct
    rw [hinv]
    simp
  · intro h
    revert h
    unfold processProduct
    split
    · intro _; rfl
    · split
      · intro _; rfl
      · split
        · intro _; rfl
        · intro h; simp at h

/-- Witness for `persisted_only_if_valid`: a valid card is saved and indeed
spec-valid; the card missing its price is spec-invalid, skipped, and persists
nothing. -/
theorem persisted_only_if_valid_witness :
    ((processProduct "Pichau" [] cand1).1 = true ∧ specValid cand1 = true) ∧
      (specValid cand3 = false ∧
        (processProduct "Pichau" [] cand3).1 = false ∧
          (processProduct "Pichau" [] cand3).2 = []) :=
  ⟨⟨by decide, (persisted_only_if_valid "Pichau" [] cand1).1 (by decide)⟩,
    ⟨by decide, (persisted_only_if_valid "Pichau" [] cand3).2.1 (by decide)⟩⟩

/-- A title shorter than 5 (or longer than 500) characters makes the pydantic
product construction fail, whatever the other fields hold. -/
theorem mkEnrichedProduct_short_title_none (r : ExtractionResult) (st : Store)
    (t : String) (ht : r.title = some t)
    (hlen : t.length < 5 ∨ 500 < t.length) :
    mkEnrichedProduct r st = none := by
  rcases r with ⟨t', praw, pv, u, av⟩
  simp only [ExtractionResult.title] at ht
  subst ht
  unfold mkEnrichedProduct
  cases praw <;> cases pv <;> cases u <;> simp [hlen]

/-- C10: a candidate that passes extraction validation but whose title is
shorter than 5 characters (or longer than 500) fails the pydantic `RawProduct`
construction; the `ValidationError` is caught inside the per-element pipeline:
the element is counted as skipped, the database is unchanged, and the page
continues with the remaining candidates — so the effective minimum title
length at the persistence boundary is 5 characters. -/
theorem short_title_caught_and_skipped (storeName : String)
    (db : List StoredProduct) (r : ExtractionResult) (t : String)
    (hval : validateExtraction r = true) (ht : r.title = some t)
    (hlen : t.length < 5 ∨ 500 < t.length) :
    processProduct storeName db r = (false, db) ∧
      ∀ (s : RunState) (rest : List ExtractionResult),
        processCandidates storeName s (r :: rest) =
          processCandidates storeName
            { s with
              metrics :=
                { s.metrics with
                  products_skipped := s.metrics.products_skipped + 1 } } rest := by
  have hmain : ∀ db2 : List StoredProduct, processProduct storeName db2 r = (false, db2) := by
    intro db2
    unfold processProduct
    rw [hval]
    simp only [Bool.not_true, Bool.false_eq_true, if_false]
    split
    · rfl
    · rename_i st heq
      rw [mkEnrichedProduct_short_title_none r st t ht hlen]
  refine ⟨hmain db, ?_⟩
  intro s rest
  simp only [processCandidates, hmain s.db]
  simp

/-- Witness for `short_title_caught_and_skipped` at the concrete 3-character
title "GPU": skipped, database unchanged, page continues. -/
theorem short_title_caught_and_skipped_witness :
    (validateExtraction candShortTitle = true ∧
        candShortTitle.title = some "GPU" ∧ "GPU".length < 5) ∧
      (processProduct "Pichau" [prodP] candShortTitle = (false, [prodP]) ∧
        processCandidates "Pichau" initState [candShortTitle, cand1] =
          processCandidates "Pichau"
            { initState with
              metrics :=
                { initState.metrics with
                  products_skipped := initState.metrics.products_skipped + 1 } }
            [cand1]) :=
  ⟨⟨by decide, rfl, by decide⟩,
    ⟨(short_title_caught_and_skipped "Pichau" [prodP] candShortTitle "GPU"
        (by decide) rfl (Or.inl (by decide))).1,
      (short_title_caught_and_skipped "Pichau" [prodP] candShortTitle "GPU"
        (by decide) rfl (Or.inl (by decide))).2 initState [cand1]⟩⟩

/-- Persisting a product whose URL has no row yet appends a new row. -/
theorem productRepoCreate_absent (p : StoredProduct) :
    ∀ db : List StoredProduct,
      (db.filter (fun rec => rec.url == p.url)).length = 0 →
      productRepoCreate db p = db ++ [p] := by
  intro db
  induction db with
  | nil => intro _; rfl
  | cons r rest ih =>
      intro h
      rw [List.filter_cons] at h
      by_cases hr : (r.url == p.url) = true
      · rw [if_pos hr] at h
        simp at h
      · rw [if_neg hr] at h
        simp only [productRepoCreate]
        rw [if_neg hr, ih h]
        rfl

/-- Persisting a product whose URL has exactly one row updates that row in
place: afterwards there is still exactly one row for the URL and it carries
the new title and price. -/
theorem productRepoCreate_present (p : StoredProduct) :
    ∀ db : List StoredProduct,
      (db.filter (fun rec => rec.url == p.url)).length = 1 →
      ((productRepoCreate db p).filter (fun rec => rec.url == p.url)).length = 1 ∧
        ∀ rec ∈ productRepoCreate db p, rec.url = p.url →
          rec.title = p.title ∧ rec.price_raw = p.price_raw ∧
            rec.price_value = p.price_value := by
  intro db
  induction db with
  | nil => intro h; simp at h
  | cons r rest ih =>
      intro h
      rw [List.filter_cons] at h
      by_cases hr : (r.url == p.url) = true
      · rw [if_pos hr, List.length_cons] at h
        have hrest : (rest.filter (fun rec => rec.url == p.url)).length = 0 := by omega
        simp only [productRepoCreate]
        rw [if_pos hr]
        constructor
        · rw [List.filter_cons, if_pos hr, List.length_cons, hrest]
        · intro rec hrec hurl
          rcases List.mem_cons.mp hrec with hcase | hcase
          · subst hcase; exact ⟨rfl, rfl, rfl⟩
          · exfalso
            have hmem : rec ∈ rest.filter (fun rec => rec.url == p.url) :=
              List.mem_filter.mpr ⟨hcase, by simp [hurl]⟩
            rw [List.length_eq_zero] at hrest
            rw [hrest] at hmem
            exact (List.not_mem_nil rec) hmem
      · rw [if_neg hr] at h
        obtain ⟨ih1, ih2⟩ := ih h
        simp only [productRepoCreate]
        rw [if_neg hr]
        constructor
        · rw [List.filter_cons, if_neg hr]
          exact ih1
        · intro rec hrec hurl
          rcases List.mem_cons.mp hrec with hcase | hcase
          · exfalso
            subst hcase
            exact hr (by simp [hurl])
          · exact ih2 rec hcase hurl

/-- C9: persistence is an upsert keyed on URL.  If the database holds at most
one row for a URL (the invariant the upsert itself maintains), then persisting
`p` followed by `q` with that same URL leaves exactly one row for it, and that
row carries `q`'s — the latest — title and price; and persisting a product
whose URL is not yet stored appends a new row. -/
theorem upsert_keyed_on_url (db : List StoredProduct) (p q : StoredProduct)
    (hpq : q.url = p.url) :
    ((db.filter (fun rec => rec.url == p.url)).length ≤ 1 →
      ((productRepoCreate (productRepoCreate db p) q).filter
          (fun rec => rec.url == p.url)).length = 1 ∧
        ∀ rec ∈ productRepoCreate (productRepoCreate db p) q,
          rec.url = p.url →
            rec.title = q.title ∧ rec.price_raw = q.price_raw ∧
              rec.price_value = q.price_value) ∧
      ((db.filter (fun rec => rec.url == p.url)).length = 0 →
        productRepoCreate db p = db ++ [p]) := by
  constructor
  · intro hle
    have h1 : ((productRepoCreate db p).filter
        (fun rec => rec.url == p.url)).length = 1 := by
      have hcases : (db.filter (fun rec => rec.url == p.url)).length = 0 ∨
          (db.filter (fun rec => rec.url == p.url)).length = 1 := by omega
      rcases hcases with h0 | hone
      · rw [productRepoCreate_absent p db h0, List.filter_append, List.length_append, h0]
        simp
      · exact (productRepoCreate_present p db hone).1
    have hq : ((productRepoCreate db p).filter
        (fun rec => rec.url == q.url)).length = 1 := by
      rw [hpq]; exact h1
    have h2 := productRepoCreate_present q (productRepoCreate db p) hq
    constructor
    · have := h2.1
      rw [hpq] at this
      exact this
    · intro rec hrec hurl
      exact h2.2 rec hrec (by rw [hpq]; exact hurl)
  · exact productRepoCreate_absent p db

/-- Witness for `upsert_keyed_on_url`: persisting `prodP` and then `prodQ`
(same URL, different title and price) into an empty database yields exactly
one row — `prodQ` itself. -/
theorem upsert_keyed_on_url_witness :
    (prodQ.url = prodP.url ∧
        ((([] : List StoredProduct).filter
            (fun rec => rec.url == prodP.url)).length ≤ 1)) ∧
      (((productRepoCreate (productRepoCreate [] prodP) prodQ).filter
            (fun rec => rec.url == prodP.url)).length = 1 ∧
        productRepoCreate (productRepoCreate [] prodP) prodQ = [prodQ]) :=
  ⟨⟨rfl, by decide⟩,
    ⟨((upsert_keyed_on_url [] prodP prodQ rfl).1 (by decide)).1, by decide⟩⟩

/-- `max(list)` returns an element of the list. -/
theorem listMax_mem : ∀ l : List ℚ, l ≠ [] → listMax l ∈ l := by
  intro l
  induction l with
  | nil => intro h; exact absurd rfl h
  | cons v rest ih =>
      intro _
      cases rest with
      | nil => simp [listMax]
      | cons w rs =>
          rcases le_total v (listMax (w :: rs)) with hle | hle
          · show max v (listMax (w :: rs)) ∈ v :: w :: rs
            rw [max_eq_right hle]
            exact List.mem_cons_of_mem v (ih (by simp))
          · show max v (listMax (w :: rs)) ∈ v :: w :: rs
            rw [max_eq_left hle]
            exact List.mem_cons_self v _

/-- `max(list)` bounds every element of the list. -/
theorem le_listMax : ∀ (l : List ℚ), ∀ x ∈ l, x ≤ listMax l := by
  intro l
  induction l with
  | nil => intro x hx; simp at hx
  | cons v rest ih =>
      intro x hx
      cases rest with
      | nil =>
          simp only [List.mem_singleton] at hx
          simp [listMax, hx]
      | cons w rs =>
          rcases List.mem_cons.mp hx with hx | hx
          · subst hx
            exact le_max_left _ _
          · exact le_trans (ih x hx) (le_max_right _ _)

/-- `min(list)` returns an element of the list. -/
theorem listMin_mem : ∀ l : List ℚ, l ≠ [] → listMin l ∈ l := by
  intro l
  induction l with
  | nil => intro h; exact absurd rfl h
  | cons v rest ih =>
      intro _
      cases rest with
      | nil => simp [listMin]
      | cons w rs =>
          rcases le_total v (listMin (w :: rs)) with hle | hle
          · show min v (listMin (w :: rs)) ∈ v :: w :: rs
            rw [min_eq_left hle]
            exact List.mem_cons_self v _
          · show min v (listMin (w :: rs)) ∈ v :: w :: rs
            rw [min_eq_right hle]
            exact List.mem_cons_of_mem v (ih (by simp))

/-- `min(list)` is below every element of the list. -/
theorem listMin_le : ∀ (l : List ℚ), ∀ x ∈ l, listMin l ≤ x := by
  intro l
  induction l with
  | nil => intro x hx; simp at hx
  | cons v rest ih =>
      intro x hx
      cases rest with
      | nil =>
          simp only [List.mem_singleton] at hx
          simp [listMin, hx]
      | cons w rs =>
          rcases List.mem_cons.mp hx with hx | hx
          · subst hx
            exact min_le_left _ _
          · exact le_trans (min_le_right _ _) (ih x hx)

/-- C5: for every non-empty list of detected currency values (each past the
`> 100` sanity check of `extract_price`), the installment filter returns a
price that is one of the detected values, strictly exceeds 20% of the maximum
detected value, and is the minimum among the values strictly exceeding that
threshold; and on the detected values `[529.41, 5399.99, 26999.00]`
(threshold 5399.8) the chosen price is `5399.99`, not `529.41`. -/
theorem installment_filter_min_above_threshold (vs : List ℚ) (hne : vs ≠ [])
    (hpos : ∀ v ∈ vs, 100 < v) :
    (∃ pr, chooseBestPrice vs = some pr ∧ pr ∈ vs ∧ listMax vs * 0.2 < pr ∧
        ∀ v ∈ vs, listMax vs * 0.2 < v → pr ≤ v) ∧
      chooseBestPrice [(529.41 : ℚ), 5399.99, 26999.00] = some 5399.99 := by
  have hgen : ∀ ws : List ℚ, ws ≠ [] → (∀ v ∈ ws, 100 < v) →
      ∃ pr, chooseBestPrice ws = some pr ∧ pr ∈ ws ∧ listMax ws * 0.2 < pr ∧
        ∀ v ∈ ws, listMax ws * 0.2 < v → pr ≤ v := by
    intro ws hne hpos
    have hmaxmem := listMax_mem ws hne
    have hmaxpos : (100 : ℚ) < listMax ws := hpos _ hmaxmem
    have hthr : listMax ws * 0.2 < listMax ws := by
      have h02 : (0.2 : ℚ) = 1 / 5 := by norm_num
      rw [h02]
      linarith
    have hfil : listMax ws ∈ ws.filter (fun v => decide (listMax ws * 0.2 < v)) :=
      List.mem_filter.mpr ⟨hmaxmem, by simp [hthr]⟩
    have hfne : ws.filter (fun v => decide (listMax ws * 0.2 < v)) ≠ [] := by
      intro hx
      rw [hx] at hfil
      exact List.not_mem_nil _ hfil
    refine ⟨listMin (ws.filter (fun v => decide (listMax ws * 0.2 < v))), ?_, ?_, ?_, ?_⟩
    · simp only [chooseBestPrice]
      rw [if_neg hne, if_neg hfne]
    · exact (List.mem_filter.mp (listMin_mem _ hfne)).1
    · have h2 := (List.mem_filter.mp (listMin_mem _ hfne)).2
      simpa using h2
    · intro v hv hvthr
      exact listMin_le _ v (List.mem_filter.mpr ⟨hv, by simp [hvthr]⟩)
  have hmem100 : ∀ v ∈ [(529.41 : ℚ), 5399.99, 26999.00], 100 < v := by
    intro v hv
    simp only [List.mem_cons, List.not_mem_nil, or_false] at hv
    rcases hv with h | h | h <;> rw [h] <;> norm_num
  refine ⟨hgen vs hne hpos, ?_⟩
  obtain ⟨pr, heq, hmem, hthr, hmin⟩ :=
    hgen [(529.41 : ℚ), 5399.99, 26999.00] (by simp) hmem100
  have hmax : listMax [(529.41 : ℚ), 5399.99, 26999.00] = 26999.00 := by
    show max (529.41 : ℚ) (max 5399.99 26999.00) = 26999.00
    rw [max_eq_right (by norm_num : (5399.99 : ℚ) ≤ 26999.00),
      max_eq_right (by norm_num : (529.41 : ℚ) ≤ 26999.00)]
  rw [hmax] at hthr hmin
  have hpr : pr = 5399.99 := by
    have hle : pr ≤ 5399.99 := hmin 5399.99 (by simp) (by norm_num)
    simp only [List.mem_cons, List.not_mem_nil, or_false] at hmem
    rcases hmem with h | h | h
    · exfalso
      rw [h] at hthr
      norm_num at hthr
    · exact h
    · exfalso
      rw [h] at hle
      norm_num at hle
  rw [hpr] at heq
  exact heq

/-- Witness for `installment_filter_min_above_threshold` at the spec's
concrete detected values. -/
theorem installment_filter_witness :
    (([(529.41 : ℚ), 5399.99, 26999.00] ≠ []) ∧
        (∀ v ∈ [(529.41 : ℚ), 5399.99, 26999.00], 100 < v)) ∧
      chooseBestPrice [(529.41 : ℚ), 5399.99, 26999.00] = some 5399.99 :=
  ⟨⟨by simp, by
      intro v hv
      simp only [List.mem_cons, List.not_mem_nil, or_false] at hv
      rcases hv with h | h | h <;> rw [h] <;> norm_num⟩,
    (installment_filter_min_above_threshold [(529.41 : ℚ), 5399.99, 26999.00]
        (by simp)
        (by
          intro v hv
          simp only [List.mem_cons, List.not_mem_nil, or_false] at hv
          rcases hv with h | h | h <;> rw [h] <;> norm_num)).2⟩

/-- A decimal digit character is none of the separator, sign, currency or
whitespace characters the parsers treat specially. -/
theorem digit_ne_special {c : Char} (h : c.isDigit = true) :
    c ≠ '.' ∧ c ≠ ',' ∧ c ≠ '-' ∧ c ≠ 'R' ∧ c ≠ '$' ∧ c.isWhitespace = false := by
  refine ⟨?_, ?_, ?_, ?_, ?_, ?_⟩
  · intro h2; rw [h2] at h; exact absurd h (by decide)
  · intro h2; rw [h2] at h; exact absurd h (by decide)
  · intro h2; rw [h2] at h; exact absurd h (by decide)
  · intro h2; rw [h2] at h; exact absurd h (by decide)
  · intro h2; rw [h2] at h; exact absurd h (by decide)
  · cases hw : c.isWhitespace
    · rfl
    · exfalso
      have hd := h
      simp only [Char.isWhitespace, Bool.or_eq_true, decide_eq_true_eq] at hw
      rcases hw with ((h1 | h1) | h1) | h1 <;> subst h1 <;> exact absurd hd (by decide)

/-- `takeWhile` walks through a prefix on which the predicate holds. -/
theorem takeWhile_append_all (p : Char → Bool) :
    ∀ l1 l2 : List Char, (∀ c ∈ l1, p c = true) →
      (l1 ++ l2).takeWhile p = l1 ++ l2.takeWhile p := by
  intro l1
  induction l1 with
  | nil => intro l2 _; rfl
  | cons a l ih =>
      intro l2 h
      have ha : p a = true := h a (by simp)
      simp only [List.cons_append, List.takeWhile_cons, ha, if_true]
      rw [ih l2 (fun c hc => h c (by simp [hc]))]

/-- `dropWhile` drops a prefix on which the predicate holds. -/
theorem dropWhile_append_all (p : Char → Bool) :
    ∀ l1 l2 : List Char, (∀ c ∈ l1, p c = true) →
      (l1 ++ l2).dropWhile p = l2.dropWhile p := by
  intro l1
  induction l1 with
  | nil => intro l2 _; rfl
  | cons a l ih =>
      intro l2 h
      have ha : p a = true := h a (by simp)
      simp only [List.cons_append, List.dropWhile_cons, ha, if_true]
      exact ih l2 (fun c hc => h c (by simp [hc]))

/-- Unfolding equation of `rindex` at a cons cell. -/
theorem rindex_cons (c x : Char) (l : List Char) :
    rindex c (x :: l) = if c ∈ l then rindex c l + 1 else 0 := rfl

/-- `rindex` over a list whose right part holds the character. -/
theorem rindex_append_of_mem (c : Char) :
    ∀ l1 l2 : List Char, c ∈ l2 →
      rindex c (l1 ++ l2) = l1.length + rindex c l2 := by
  intro l1
  induction l1 with
  | nil => intro l2 _; simp
  | cons a l ih =>
      intro l2 h
      have hmem : c ∈ l ++ l2 := List.mem_append.mpr (Or.inr h)
      rw [List.cons_append, rindex_cons, if_pos hmem, ih l2 h]
      simp only [List.length_cons]
      omega

/-- `rindex` at a head occurrence with no later occurrence. -/
theorem rindex_cons_of_not_mem (c x : Char) (l : List Char) (h : c ∉ l) :
    rindex c (x :: l) = 0 := by
  rw [rindex_cons, if_neg h]

/-- Digit-list accumulator lemma for `digitsVal`. -/
theorem digitsVal_foldl_acc :
    ∀ (l : List Char) (a : ℕ),
      l.foldl (fun acc c => acc * 10 + (c.toNat - 48)) a =
        a * 10 ^ l.length + digitsVal l := by
  intro l
  induction l with
  | nil => intro a; simp [digitsVal]
  | cons c rest ih =>
      intro a
      simp only [List.foldl_cons]
      rw [ih (a * 10 + (c.toNat - 48))]
      have h2 : digitsVal (c :: rest) = (c.toNat - 48) * 10 ^ rest.length + digitsVal rest := by
        have hdef : digitsVal (c :: rest)
            = rest.foldl (fun acc c => acc * 10 + (c.toNat - 48)) (0 * 10 + (c.toNat - 48)) := rfl
        rw [hdef, ih]
        ring_nf
      rw [h2]
      simp only [List.length_cons]
      ring

/-- The value of a concatenation of digit lists. -/
theorem digitsVal_append (l1 l2 : List Char) :
    digitsVal (l1 ++ l2) = digitsVal l1 * 10 ^ l2.length + digitsVal l2 := by
  unfold digitsVal
  rw [List.foldl_append]
  exact digitsVal_foldl_acc l2 _

/-- A filter by "not this character" keeps a list free of it. -/
theorem filter_ne_eq_self (sep : Char) (l : List Char) (h : sep ∉ l) :
    l.filter (fun c => !(c == sep)) = l :=
  List.filter_eq_self.mpr (fun c hc => by
    have hne : c ≠ sep := fun he => h (he ▸ hc)
    simp [hne])

/-- Character replacement is the identity when the replaced character is
absent. -/
theorem map_if_ne (sep rep : Char) : ∀ l : List Char, sep ∉ l →
    l.map (fun c => if c = sep then rep else c) = l := by
  intro l
  induction l with
  | nil => intro _; rfl
  | cons a rest ih =>
      intro h
      have ha : a ≠ sep := fun he => h (by rw [he]; exact List.mem_cons_self _ _)
      simp only [List.map_cons, if_neg ha]
      rw [ih (fun hx => h (List.mem_cons_of_mem _ hx))]

/-- `Decimal` on a digit string with one '.' separator. -/
theorem parseDecimalNonneg_digits (ip fp : List Char)
    (hip : ∀ c ∈ ip, c.isDigit = true) (hfp : ∀ c ∈ fp, c.isDigit = true)
    (hne : ip ≠ [] ∨ fp ≠ []) :
    parseDecimalNonneg (ip ++ '.' :: fp) =
      some (mkRat (digitsVal ip * 10 ^ fp.length + digitsVal fp) (10 ^ fp.length)) := by
  have hpred : ∀ c ∈ ip, (!(c == '.')) = true := by
    intro c hc
    have h1 := (digit_ne_special (hip c hc)).1
    simp [h1]
  have ht : (ip ++ '.' :: fp).takeWhile (fun c => !(c == '.')) = ip := by
    rw [takeWhile_append_all _ ip _ hpred]
    simp [List.takeWhile_cons]
  have hd : (ip ++ '.' :: fp).dropWhile (fun c => !(c == '.')) = '.' :: fp := by
    rw [dropWhile_append_all _ ip _ hpred]
    simp [List.dropWhile_cons]
  simp only [parseDecimalNonneg, ht, hd]
  rw [if_pos ⟨hne, List.all_eq_true.mpr hip, List.all_eq_true.mpr hfp⟩]

/-- `Decimal` (with sign handling) on a digit string with one '.' separator
and a non-empty integer part. -/
theorem parseDecimal_digits (ip fp : List Char)
    (hip : ∀ c ∈ ip, c.isDigit = true) (hfp : ∀ c ∈ fp, c.isDigit = true)
    (hne0 : ip ≠ []) :
    parseDecimal (ip ++ '.' :: fp) =
      some (mkRat (digitsVal ip * 10 ^ fp.length + digitsVal fp) (10 ^ fp.length)) := by
  cases ip with
  | nil => exact absurd rfl hne0
  | cons a ip2 =>
      have ha : a.isDigit = true := hip a (by simp)
      have hnm : a ≠ '-' := (digit_ne_special ha).2.2.1
      have hstep : parseDecimal (a :: (ip2 ++ '.' :: fp))
          = if a = '-' then (parseDecimalNonneg (ip2 ++ '.' :: fp)).map (fun q => -q)
            else parseDecimalNonneg (a :: (ip2 ++ '.' :: fp)) := rfl
      rw [List.cons_append, hstep, if_neg hnm, ← List.cons_append]
      exact parseDecimalNonneg_digits (a :: ip2) fp hip hfp (Or.inl (by simp))

/-- The parsed value of integer digits `n` and fraction digits `m` over
`10 ^ k` is the expected decimal. -/
theorem mkRat_digits_eq (n m k : ℕ) :
    (mkRat (n * 10 ^ k + m) (10 ^ k) : ℚ) = (n : ℚ) + (m : ℚ) / 10 ^ k := by
  rw [Rat.mkRat_eq_div]
  have h10 : ((10 : ℚ)) ^ k ≠ 0 := pow_ne_zero k (by norm_num)
  push_cast
  field_simp

/-- The domain parser on a cleaned string of Brazilian shape (both separators
present, ',' rightmost): the rightmost separator is taken as the decimal
separator. -/
theorem domainFromString_br (l A B C : List Char)
    (hws : l.all Char.isWhitespace = false)
    (hclean : cleanPrice l = A ++ '.' :: (B ++ ',' :: C))
    (hA : ∀ c ∈ A, c.isDigit = true) (hB : ∀ c ∈ B, c.isDigit = true)
    (hC : ∀ c ∈ C, c.isDigit = true)
    (hA0 : A ≠ []) (hApos : 0 < digitsVal A) :
    domainPriceFromString l =
      some (mkRat (digitsVal (A ++ B) * 10 ^ C.length + digitsVal C)
        (10 ^ C.length)) := by
  have hAdot : '.' ∉ A := fun hx => (digit_ne_special (hA _ hx)).1 rfl
  have hBdot : '.' ∉ B := fun hx => (digit_ne_special (hB _ hx)).1 rfl
  have hCdot : '.' ∉ C := fun hx => (digit_ne_special (hC _ hx)).1 rfl
  have hAcom : ',' ∉ A := fun hx => (digit_ne_special (hA _ hx)).2.1 rfl
  have hBcom : ',' ∉ B := fun hx => (digit_ne_special (hB _ hx)).2.1 rfl
  have hCcom : ',' ∉ C := fun hx => (digit_ne_special (hC _ hx)).2.1 rfl
  have hmemcom : ',' ∈ cleanPrice l := by rw [hclean]; simp
  have hmemdot : '.' ∈ cleanPrice l := by rw [hclean]; simp
  have hrc : rindex ',' (cleanPrice l) = A.length + (B.length + 1) := by
    rw [hclean, rindex_append_of_mem _ _ _ (by simp : ',' ∈ '.' :: (B ++ ',' :: C)),
      rindex_cons, if_pos (by simp : ',' ∈ B ++ ',' :: C),
      rindex_append_of_mem _ _ _ (List.mem_cons_self _ _),
      rindex_cons_of_not_mem _ _ _ hCcom]
  have hdotBC : '.' ∉ B ++ ',' :: C := by
    intro hx
    rcases List.mem_append.mp hx with hx | hx
    · exact hBdot hx
    · rcases List.mem_cons.mp hx with hx | hx
      · exact absurd hx (by decide)
      · exact hCdot hx
  have hrd : rindex '.' (cleanPrice l) = A.length := by
    rw [hclean, rindex_append_of_mem _ _ _ (List.mem_cons_self _ _),
      rindex_cons_of_not_mem _ _ _ hdotBC]
    omega
  have hfilter : (cleanPrice l).filter (fun c => !(c == '.')) = (A ++ B) ++ ',' :: C := by
    rw [hclean, List.filter_append, filter_ne_eq_self _ _ hAdot, List.filter_cons,
      if_neg (by decide), List.filter_append, filter_ne_eq_self _ _ hBdot,
      List.filter_cons, if_pos (by decide), filter_ne_eq_self _ _ hCdot,
      List.append_assoc]
  have hmap : ((A ++ B) ++ ',' :: C).map (fun c => if c = ',' then '.' else c)
      = (A ++ B) ++ '.' :: C := by
    rw [List.map_append, List.map_cons, if_pos rfl,
      map_if_ne _ _ _ (by
        intro hx
        rcases List.mem_append.mp hx with hx | hx
        · exact hAcom hx
        · exact hBcom hx),
      map_if_ne _ _ _ hCcom]
  have hAB : ∀ c ∈ A ++ B, c.isDigit = true := by
    intro c hc
    rcases List.mem_append.mp hc with hc | hc
    · exact hA c hc
    · exact hB c hc
  have hABne : A ++ B ≠ [] := by
    intro hx
    rcases List.append_eq_nil.mp hx with ⟨h1, _⟩
    exact hA0 h1
  have hparse := parseDecimal_digits (A ++ B) C hAB hC hABne
  have hNpos : 0 < digitsVal (A ++ B) * 10 ^ C.length + digitsVal C := by
    have hABpos : 0 < digitsVal (A ++ B) := by
      rw [digitsVal_append]
      have h1 : 0 < digitsVal A * 10 ^ B.length :=
        Nat.mul_pos hApos (pow_pos (by norm_num) _)
      omega
    have h2 : 0 < digitsVal (A ++ B) * 10 ^ C.length :=
      Nat.mul_pos hABpos (pow_pos (by norm_num) _)
    omega
  have hq : 0 < (mkRat (digitsVal (A ++ B) * 10 ^ C.length + digitsVal C)
      (10 ^ C.length) : ℚ) := by
    rw [Rat.mkRat_eq_div]
    apply div_pos
    · exact_mod_cast hNpos
    · exact_mod_cast pow_pos (by norm_num : (0 : ℕ) < 10) C.length
  simp only [domainPriceFromString]
  rw [if_neg (by simp [hws] : ¬(l.all Char.isWhitespace = true)),
    if_pos ⟨hmemcom, hmemdot⟩, hrc, hrd, if_pos (by omega), hfilter, hmap, hparse,
    Option.some_bind, if_neg (not_lt.mpr hq.le), if_neg (ne_of_gt hq)]

/-- The domain parser on a cleaned string of US shape (both separators
present, '.' rightmost): again the rightmost separator is the decimal
separator, so the ',' thousands separators are deleted. -/
theorem domainFromString_us (l A B C : List Char)
    (hws : l.all Char.isWhitespace = false)
    (hclean : cleanPrice l = A ++ ',' :: (B ++ '.' :: C))
    (hA : ∀ c ∈ A, c.isDigit = true) (hB : ∀ c ∈ B, c.isDigit = true)
    (hC : ∀ c ∈ C, c.isDigit = true)
    (hA0 : A ≠ []) (hApos : 0 < digitsVal A) :
    domainPriceFromString l =
      some (mkRat (digitsVal (A ++ B) * 10 ^ C.length + digitsVal C)
        (10 ^ C.length)) := by
  have hAdot : '.' ∉ A := fun hx => (digit_ne_special (hA _ hx)).1 rfl
  have hBdot : '.' ∉ B := fun hx => (digit_ne_special (hB _ hx)).1 rfl
  have hCdot : '.' ∉ C := fun hx => (digit_ne_special (hC _ hx)).1 rfl
  have hAcom : ',' ∉ A := fun hx => (digit_ne_special (hA _ hx)).2.1 rfl
  have hBcom : ',' ∉ B := fun hx => (digit_ne_special (hB _ hx)).2.1 rfl
  have hCcom : ',' ∉ C := fun hx => (digit_ne_special (hC _ hx)).2.1 rfl
  have hmemcom : ',' ∈ cleanPrice l := by rw [hclean]; simp
  have hmemdot : '.' ∈ cleanPrice l := by rw [hclean]; simp
  have hcomBC : ',' ∉ B ++ '.' :: C := by
    intro hx
    rcases List.mem_append.mp hx with hx | hx
    · exact hBcom hx
    · rcases List.mem_cons.mp hx with hx | hx
      · exact absurd hx (by decide)
      · exact hCcom hx
  have hrc : rindex ',' (cleanPrice l) = A.length := by
    rw [hclean, rindex_append_of_mem _ _ _ (List.mem_cons_self _ _),
      rindex_cons_of_not_mem _ _ _ hcomBC]
    omega
  have hrd : rindex '.' (cleanPrice l) = A.length + (B.length + 1) := by
    rw [hclean, rindex_append_of_mem _ _ _ (by simp : '.' ∈ ',' :: (B ++ '.' :: C)),
      rindex_cons, if_pos (by simp : '.' ∈ B ++ '.' :: C),
      rindex_append_of_mem _ _ _ (List.mem_cons_self _ _),
      rindex_cons_of_not_mem _ _ _ hCdot]
  have hfilter : (cleanPrice l).filter (fun c => !(c == ',')) = (A ++ B) ++ '.' :: C := by
    rw [hclean, List.filter_append, filter_ne_eq_self _ _ hAcom, List.filter_cons,
      if_neg (by decide), List.filter_append, filter_ne_eq_self _ _ hBcom,
      List.filter_cons, if_pos (by decide), filter_ne_eq_self _ _ hCcom,
      List.append_assoc]
  have hAB : ∀ c ∈ A ++ B, c.isDigit = true := by
    intro c hc
    rcases List.mem_append.mp hc with hc | hc
    · exact hA c hc
    · exact hB c hc
  have hABne : A ++ B ≠ [] := by
    intro hx
    rcases List.append_eq_nil.mp hx with ⟨h1, _⟩
    exact hA0 h1
  have hparse := parseDecimal_digits (A ++ B) C hAB hC hABne
  have hNpos : 0 < digitsVal (A ++ B) * 10 ^ C.length + digitsVal C := by
    have hABpos : 0 < digitsVal (A ++ B) := by
      rw [digitsVal_append]
      have h1 : 0 < digitsVal A * 10 ^ B.length :=
        Nat.mul_pos hApos (pow_pos (by norm_num) _)
      omega
    have h2 : 0 < digitsVal (A ++ B) * 10 ^ C.length :=
      Nat.mul_pos hABpos (pow_pos (by norm_num) _)
    omega
  have hq : 0 < (mkRat (digitsVal (A ++ B) * 10 ^ C.length + digitsVal C)
      (10 ^ C.length) : ℚ) := by
    rw [Rat.mkRat_eq_div]
    apply div_pos
    · exact_mod_cast hNpos
    · exact_mod_cast pow_pos (by norm_num : (0 : ℕ) < 10) C.length
  simp only [domainPriceFromString]
  rw [if_neg (by simp [hws] : ¬(l.all Char.isWhitespace = true)),
    if_pos ⟨hmemcom, hmemdot⟩, hrc, hrd, if_neg (by omega), hfilter, hparse,
    Option.some_bind, if_neg (not_lt.mpr hq.le), if_neg (ne_of_gt hq)]

/-- The domain parser on a cleaned string holding only a ',' separator: the
',' is taken as the decimal separator. -/
theorem domainFromString_comma_only (l A C : List Char)
    (hws : l.all Char.isWhitespace = false)
    (hclean : cleanPrice l = A ++ ',' :: C)
    (hA : ∀ c ∈ A, c.isDigit = true) (hC : ∀ c ∈ C, c.isDigit = true)
    (hA0 : A ≠ []) (hApos : 0 < digitsVal A) :
    domainPriceFromString l =
      some (mkRat (digitsVal A * 10 ^ C.length + digitsVal C) (10 ^ C.length)) := by
  have hAdot : '.' ∉ A := fun hx => (digit_ne_special (hA _ hx)).1 rfl
  have hCdot : '.' ∉ C := fun hx => (digit_ne_special (hC _ hx)).1 rfl
  have hAcom : ',' ∉ A := fun hx => (digit_ne_special (hA _ hx)).2.1 rfl
  have hCcom : ',' ∉ C := fun hx => (digit_ne_special (hC _ hx)).2.1 rfl
  have hmemcom : ',' ∈ cleanPrice l := by rw [hclean]; simp
  have hmemdot : '.' ∉ cleanPrice l := by
    rw [hclean]
    intro hx
    rcases List.mem_append.mp hx with hx | hx
    · exact hAdot hx
    · rcases List.mem_cons.mp hx with hx | hx
      · exact absurd hx (by decide)
      · exact hCdot hx
  have hmap : (cleanPrice l).map (fun c => if c = ',' then '.' else c)
      = A ++ '.' :: C := by
    rw [hclean, List.map_append, List.map_cons, if_pos rfl, map_if_ne _ _ _ hAcom,
      map_if_ne _ _ _ hCcom]
  have hparse := parseDecimal_digits A C hA hC hA0
  have hNpos : 0 < digitsVal A * 10 ^ C.length + digitsVal C := by
    have h2 : 0 < digitsVal A * 10 ^ C.length :=
      Nat.mul_pos hApos (pow_pos (by norm_num) _)
    omega
  have hq : 0 < (mkRat (digitsVal A * 10 ^ C.length + digitsVal C)
      (10 ^ C.length) : ℚ) := by
    rw [Rat.mkRat_eq_div]
    apply div_pos
    · exact_mod_cast hNpos
    · exact_mod_cast pow_pos (by norm_num : (0 : ℕ) < 10) C.length
  simp only [domainPriceFromString]
  rw [if_neg (by simp [hws] : ¬(l.all Char.isWhitespace = true)),
    if_neg (by
      intro hx
      exact hmemdot hx.2),
    if_pos hmemcom, hmap, hparse,
    Option.some_bind, if_neg (not_lt.mpr hq.le), if_neg (ne_of_gt hq)]

/-- A list led by a digit group is not all-whitespace. -/
theorem all_ws_false_of_digit_head (A rest : List Char)
    (hA : ∀ c ∈ A, c.isDigit = true) (hA0 : A ≠ []) :
    ((A ++ rest).all Char.isWhitespace) = false := by
  cases A with
  | nil => exact absurd rfl hA0
  | cons a A2 =>
      have hr := (digit_ne_special (hA a (by simp))).2.2.2.2.2
      simp [List.all_cons, hr]

/-- `cleanPrice` is the identity on digit/separator strings. -/
theorem cleanPrice_digit_sep (l : List Char)
    (h : ∀ c ∈ l, c.isDigit = true ∨ c = '.' ∨ c = ',') :
    cleanPrice l = l := by
  apply List.filter_eq_self.mpr
  intro c hc
  rcases h c hc with hd | hd | hd
  · obtain ⟨_, _, _, h4, h5, h6⟩ := digit_ne_special hd
    simp [h4, h5, h6]
  · subst hd; decide
  · subst hd; decide

/-- `cleanPrice` deletes the `"R$ "` prefix and keeps a digit/separator
remainder. -/
theorem cleanPrice_drops_rs (rest : List Char)
    (h : ∀ c ∈ rest, c.isDigit = true ∨ c = '.' ∨ c = ',') :
    cleanPrice ('R' :: '$' :: ' ' :: rest) = rest := by
  show List.filter _ _ = rest
  rw [List.filter_cons, if_neg (by decide), List.filter_cons, if_neg (by decide),
    List.filter_cons, if_neg (by decide)]
  exact cleanPrice_digit_sep rest h

/-- C6 amended: the domain value-object `Price.from_string` treats whichever
separator occurs rightmost as the decimal separator: for all digit groups
`A`, `B`, `C` (leading group non-empty with non-zero value) the Brazilian
forms `R$ A.B,C` and `A.B,C` and the US form `A,B.C` all parse to the decimal
`AB + C/10^|C|`; a lone ',' acts as the decimal separator; the two concrete
example strings `"1.234,56"` and `"1,234.56"` both parse to `1234.56` there,
and `"R$ 2.500,99"` parses to `2500.99` in the domain parser and in the
backend core parser alike.  (The backend core parser, which assumes Brazilian
format unconditionally, fails on the US form — see the counterexample.) -/
theorem rightmost_separator_decides_decimal :
    (∀ A B C : List Char,
      (∀ c ∈ A, c.isDigit = true) → (∀ c ∈ B, c.isDigit = true) →
      (∀ c ∈ C, c.isDigit = true) → A ≠ [] → 0 < digitsVal A →
      domainPriceFromString ('R' :: '$' :: ' ' :: (A ++ '.' :: (B ++ ',' :: C)))
          = some ((digitsVal (A ++ B) : ℚ) + (digitsVal C : ℚ) / 10 ^ C.length) ∧
        domainPriceFromString (A ++ '.' :: (B ++ ',' :: C))
          = some ((digitsVal (A ++ B) : ℚ) + (digitsVal C : ℚ) / 10 ^ C.length) ∧
        domainPriceFromString (A ++ ',' :: (B ++ '.' :: C))
          = some ((digitsVal (A ++ B) : ℚ) + (digitsVal C : ℚ) / 10 ^ C.length)) ∧
      (∀ A C : List Char,
        (∀ c ∈ A, c.isDigit = true) → (∀ c ∈ C, c.isDigit = true) →
        A ≠ [] → 0 < digitsVal A →
        domainPriceFromString (A ++ ',' :: C)
          = some ((digitsVal A : ℚ) + (digitsVal C : ℚ) / 10 ^ C.length)) ∧
      (domainPriceFromString "1.234,56".toList = some 1234.56 ∧
        domainPriceFromString "1,234.56".toList = some 1234.56 ∧
        domainPriceFromString "R$ 2.500,99".toList = some 2500.99 ∧
        backendPriceFromString "R$ 2.500,99".toList = some 2500.99) := by
  refine ⟨?_, ?_, ?_⟩
  · intro A B C hA hB hC hA0 hApos
    have hds : ∀ c ∈ A ++ '.' :: (B ++ ',' :: C),
        c.isDigit = true ∨ c = '.' ∨ c = ',' := by
      intro c hc
      rcases List.mem_append.mp hc with hc | hc
      · exact Or.inl (hA c hc)
      · rcases List.mem_cons.mp hc with hc | hc
        · exact Or.inr (Or.inl hc)
        · rcases List.mem_append.mp hc with hc | hc
          · exact Or.inl (hB c hc)
          · rcases List.mem_cons.mp hc with hc | hc
            · exact Or.inr (Or.inr hc)
            · exact Or.inl (hC c hc)
    have hdsUS : ∀ c ∈ A ++ ',' :: (B ++ '.' :: C),
        c.isDigit = true ∨ c = '.' ∨ c = ',' := by
      intro c hc
      rcases List.mem_append.mp hc with hc | hc
      · exact Or.inl (hA c hc)
      · rcases List.mem_cons.mp hc with hc | hc
        · exact Or.inr (Or.inr hc)
        · rcases List.mem_append.mp hc with hc | hc
          · exact Or.inl (hB c hc)
          · rcases List.mem_cons.mp hc with hc | hc
            · exact Or.inr (Or.inl hc)
            · exact Or.inl (hC c hc)
    have hws1 : (('R' :: '$' :: ' ' :: (A ++ '.' :: (B ++ ',' :: C))).all
        Char.isWhitespace) = false := by
      have hr : Char.isWhitespace 'R' = false := by decide
      simp [List.all_cons, hr]
    refine ⟨?_, ?_, ?_⟩
    · rw [domainFromString_br _ A B C hws1 (cleanPrice_drops_rs _ hds)
        hA hB hC hA0 hApos, mkRat_digits_eq]
    · rw [domainFromString_br _ A B C (all_ws_false_of_digit_head A _ hA hA0)
        (cleanPrice_digit_sep _ hds) hA hB hC hA0 hApos, mkRat_digits_eq]
    · rw [domainFromString_us _ A B C (all_ws_false_of_digit_head A _ hA hA0)
        (cleanPrice_digit_sep _ hdsUS) hA hB hC hA0 hApos, mkRat_digits_eq]
  · intro A C hA hC hA0 hApos
    have hds : ∀ c ∈ A ++ ',' :: C, c.isDigit = true ∨ c = '.' ∨ c = ',' := by
      intro c hc
      rcases List.mem_append.mp hc with hc | hc
      · exact Or.inl (hA c hc)
      · rcases List.mem_cons.mp hc with hc | hc
        · exact Or.inr (Or.inr hc)
        · exact Or.inl (hC c hc)
    rw [domainFromString_comma_only _ A C (all_ws_false_of_digit_head A _ hA hA0)
      (cleanPrice_digit_sep _ hds) hA hC hA0 hApos, mkRat_digits_eq]
  · have h1 : domainPriceFromString "1.234,56".toList = some (mkRat 123456 100) := by
      decide
    have h2 : domainPriceFromString "1,234.56".toList = some (mkRat 123456 100) := by
      decide
    have h3 : domainPriceFromString "R$ 2.500,99".toList = some (mkRat 250099 100) := by
      decide
    have h4 : backendPriceFromString "R$ 2.500,99".toList = some (mkRat 250099 100) := by
      decide
    refine ⟨?_, ?_, ?_, ?_⟩
    · rw [h1]; congr 1; rw [Rat.mkRat_eq_div]; norm_num
    · rw [h2]; congr 1; rw [Rat.mkRat_eq_div]; norm_num
    · rw [h3]; congr 1; rw [Rat.mkRat_eq_div]; norm_num
    · rw [h4]; congr 1; rw [Rat.mkRat_eq_div]; norm_num

/-- Witness for `rightmost_separator_decides_decimal`: the digit groups of
`"1.234,56"` satisfy the hypotheses, and the universally quantified Brazilian
clause evaluates as expected on them. -/
theorem rightmost_separator_witness :
    ((∀ c ∈ ['1'], c.isDigit = true) ∧ (['1'] : List Char) ≠ [] ∧ 0 < digitsVal ['1']) ∧
      domainPriceFromString (['1'] ++ '.' :: (['2', '3', '4'] ++ ',' :: ['5', '6']))
        = some ((digitsVal (['1'] ++ ['2', '3', '4']) : ℚ) +
            (digitsVal ['5', '6'] : ℚ) / 10 ^ (['5', '6'] : List Char).length) :=
  ⟨⟨by decide, by decide, by decide⟩,
    (rightmost_separator_decides_decimal.1 ['1'] ['2', '3', '4'] ['5', '6']
      (by decide) (by decide) (by decide) (by decide) (by decide)).2.1⟩

/-- C6 counterexample: the backend core `Price.from_string` does not treat the
rightmost separator as decimal — on the US-format string `"1,234.56"` it
deletes the '.', reads `1.23456`, and fails the range validation: the parse
does not yield `1234.56` (it yields nothing), contradicting the claim for the
cited backend parser. -/
theorem backend_us_format_misparsed :
    backendPriceFromString "1,234.56".toList = none ∧
      ¬ backendPriceFromString "1,234.56".toList = some (1234.56 : ℚ) := by
  have h : backendPriceFromString "1,234.56".toList = none := by decide
  exact ⟨h, by rw [h]; simp⟩

end WebScrapper
